import Mathlib

/-!
Crawl-and-enrich pipeline of `src/index.js`.

A shallow embedding of the scraper's pure logic and of its cooperative
scheduling, followed by the properties established about it.

* `runWithConcurrency` is embedded as a transition system: the driver (the body
  of the async function) and the promises it creates move by events of the
  JavaScript job queue.
* `scrapePages`, `waitForContent`, `processLink` and `main` are embedded as
  functions of the answers their collaborators give (listing source, browser
  session, normalisation service, file system).
-/

namespace Scraper

/-! ## Bounded executor: `runWithConcurrency` (index.js 381-403) -/

/-- How a promise settles: `Promise.allSettled` reports exactly these two shapes -/
inductive Outcome (α ε : Type) where
  | fulfilled (value : α)
  | rejected (reason : ε)
  deriving DecidableEq, Repr

/-- One started task. `job` is what the promise returned by `task()` settles with once it
does; `taskSettled` says whether it has; `p` is the derived promise
`task().then(res => { executing.delete(p); return res; })` (`none` while pending);
`inExecuting` says whether `p` is a member of the set `executing`. -/
structure Slot (α ε : Type) where
  job : Outcome α ε
  taskSettled : Bool
  p : Option (Outcome α ε)
  inExecuting : Bool
  deriving DecidableEq, Repr

/-- Where the body of `runWithConcurrency` stands -/
inductive Driver (α ε : Type) where
  /-- running the synchronous code of the `for` loop -/
  | looping
  /-- suspended at `await Promise.race(executing)`; the argument is the state of the race promise -/
  | awaitingRace (race : Option (Outcome α ε))
  /-- the loop is over and `Promise.allSettled(results)` has been returned, still pending -/
  | awaitingAll
  /-- the promise of the run is fulfilled with the array of outcomes -/
  | done (results : List (Outcome α ε))
  /-- the `await` threw: the promise of the run is rejected -/
  | failed (reason : ε)
  deriving DecidableEq, Repr

/-- State of one call of `runWithConcurrency`: the tasks the loop has not reached yet and
the started tasks in start order (the array `results` holds their promises `p`). -/
structure ExecState (α ε : Type) where
  tasks : List (Outcome α ε)
  slots : List (Slot α ε)
  driver : Driver α ε
  deriving DecidableEq, Repr

/-- Events of the job queue -/
inductive Event where
  /-- the driver runs its next piece of synchronous code: one loop iteration, or the loop exit -/
  | advance
  /-- the promise returned by the `i`-th started task settles -/
  | complete (i : Nat)
  /-- the reaction registered by `.then` on the `i`-th task promise runs, settling `p` -/
  | callback (i : Nat)
  /-- the driver continues after `await Promise.race(executing)` -/
  | resume
  /-- `Promise.allSettled(results)` resolves -/
  | settleAll
  deriving DecidableEq, Repr

variable {α ε : Type}

/-- The state at the call: `results = []`, `executing = new Set()` -/
def ExecState.init (tasks : List (Outcome α ε)) : ExecState α ε :=
  { tasks := tasks, slots := [], driver := .looping }

/-- Value of `executing.size` -/
def executingSize (slots : List (Slot α ε)) : Nat :=
  slots.countP (fun sl => sl.inExecuting)

/-- Number of tasks started whose promise has not settled yet -/
def inFlight (slots : List (Slot α ε)) : Nat :=
  slots.countP (fun sl => !sl.taskSettled)

/-- State of `Promise.race(executing)` when it is created. Fulfilled members have left the
set, so a member is pending or rejected; a rejected member (first in insertion order)
settles the race at once. -/
def raceOf : List (Slot α ε) → Option (Outcome α ε)
  | [] => none
  | sl :: rest =>
    match sl.inExecuting, sl.p with
    | true, some (.rejected r) => some (.rejected r)
    | _, _ => raceOf rest

/-- Value of `Promise.allSettled(results)` once every `p` has settled -/
def allSettled : List (Slot α ε) → Option (List (Outcome α ε))
  | [] => some []
  | sl :: rest =>
    match sl.p, allSettled rest with
    | some o, some os => some (o :: os)
    | _, _ => none

/-- The reaction `res => { executing.delete(p); return res; }` registered on the task
promise. It has no rejection handler: when the task promise rejects, `p` rejects with the
same reason and nothing removes it from `executing`. -/
def Slot.react (sl : Slot α ε) : Slot α ε :=
  match sl.job with
  | .fulfilled v => { sl with p := some (.fulfilled v), inExecuting := false }
  | .rejected r => { sl with p := some (.rejected r) }

/-- One event. `none` when the event is not enabled in the state. -/
def step (concurrencyLimit : Nat) (s : ExecState α ε) : Event → Option (ExecState α ε)
  | .advance =>
    match s.driver, s.tasks with
    | .looping, task :: rest =>
      -- const p = task().then(...); executing.add(p); results.push(p);
      let slots := s.slots ++ [{ job := task, taskSettled := false, p := none, inExecuting := true }]
      -- if (executing.size >= concurrencyLimit) await Promise.race(executing);
      if concurrencyLimit ≤ executingSize slots then
        some { tasks := rest, slots := slots, driver := .awaitingRace (raceOf slots) }
      else
        some { tasks := rest, slots := slots, driver := .looping }
    | .looping, [] =>
      -- return Promise.allSettled(results);
      some { s with driver := .awaitingAll }
    | _, _ => none
  | .complete i =>
    match s.slots[i]? with
    | some sl =>
      if sl.taskSettled then none
      else some { s with slots := s.slots.set i { sl with taskSettled := true } }
    | none => none
  | .callback i =>
    match s.slots[i]? with
    | some sl =>
      if sl.taskSettled && sl.p.isNone then
        let driver : Driver α ε :=
          match s.driver with
          | .awaitingRace none => .awaitingRace (some sl.job)
          | d => d
        some { s with slots := s.slots.set i sl.react, driver := driver }
      else none
    | none => none
  | .resume =>
    match s.driver with
    | .awaitingRace (some (.fulfilled _)) => some { s with driver := .looping }
    | .awaitingRace (some (.rejected r)) => some { s with driver := .failed r }
    | _ => none
  | .settleAll =>
    match s.driver with
    | .awaitingAll =>
      match allSettled s.slots with
      | some outs => some { s with driver := .done outs }
      | none => none
    | _ => none

/-- A schedule: the events in the order the job queue delivers them -/
def run (concurrencyLimit : Nat) (s : ExecState α ε) : List Event → Option (ExecState α ε)
  | [] => some s
  | e :: es =>
    match step concurrencyLimit s e with
    | some s' => run concurrencyLimit s' es
    | none => none

/-- `runWithConcurrency(tasks, concurrencyLimit)` under a schedule -/
def runWithConcurrency (tasks : List (Outcome α ε)) (concurrencyLimit : Nat)
    (schedule : List Event) : Option (ExecState α ε) :=
  run concurrencyLimit (ExecState.init tasks) schedule

/-- Per-slot consistency: `p` settles only after the task promise, and a pending `p` is in the set -/
def Slot.ok (sl : Slot α ε) : Prop :=
  (sl.taskSettled = false → sl.p = none) ∧ (sl.p = none → sl.inExecuting = true)

/-- What every reachable state satisfies under limit `k` -/
structure Inv (k : Nat) (s : ExecState α ε) : Prop where
  slots_ok : ∀ sl ∈ s.slots, sl.ok
  size_le : executingSize s.slots ≤ k
  looping_lt : s.driver = .looping → executingSize s.slots < k
  raced_lt : ∀ v, s.driver = .awaitingRace (some (.fulfilled v)) → executingSize s.slots < k

/-- What a schedule preserves about the tasks given at the call -/
structure Traced (tasks0 : List (Outcome α ε)) (s : ExecState α ε) : Prop where
  jobs_eq : s.slots.map (fun sl => sl.job) ++ s.tasks = tasks0
  p_eq : ∀ sl ∈ s.slots, ∀ o, sl.p = some o → o = sl.job
  all_nil : s.driver = .awaitingAll → s.tasks = []
  done_eq : ∀ outs, s.driver = .done outs → outs = tasks0

/-- State used to illustrate the ceiling: three jobs under limit 2, the first finished -/
def ceilingExample : ExecState Nat Nat :=
  { tasks := []
    slots :=
      [ { job := .fulfilled 10, taskSettled := true, p := some (.fulfilled 10),
          inExecuting := false },
        { job := .rejected 7, taskSettled := false, p := none, inExecuting := true },
        { job := .fulfilled 30, taskSettled := false, p := none, inExecuting := true } ]
    driver := .awaitingRace none }

/-- Failing run of the settle-all claim: the first job rejects, the limit is 1 -/
def rejectFirst : List (Outcome Nat Nat) := [.rejected 7, .fulfilled 10]

/-- The states a run of `rejectFirst` under limit 1 passes through, in order -/
def rejectFirstStates : List (ExecState Nat Nat) :=
  [ ExecState.init rejectFirst,
    { tasks := [.fulfilled 10]
      slots := [{ job := .rejected 7, taskSettled := false, p := none, inExecuting := true }]
      driver := .awaitingRace none },
    { tasks := [.fulfilled 10]
      slots := [{ job := .rejected 7, taskSettled := true, p := none, inExecuting := true }]
      driver := .awaitingRace none },
    { tasks := [.fulfilled 10]
      slots := [{ job := .rejected 7, taskSettled := true, p := some (.rejected 7),
                  inExecuting := true }]
      driver := .awaitingRace (some (.rejected 7)) },
    { tasks := [.fulfilled 10]
      slots := [{ job := .rejected 7, taskSettled := true, p := some (.rejected 7),
                  inExecuting := true }]
      driver := .failed 7 } ]

/-! ## Listing pages and `scrapePages` (index.js 57-147) -/

/-- One element matched by `$('.s-item')`: the `href` attribute of the `.s-item__link`
found below it, `none` when there is no such attribute -/
structure Element where
  href : Option String
  deriving DecidableEq, Repr

/-- The element matched by `$('.pagination__next')`, if any, with its `aria-disabled` attribute -/
inductive NextButton where
  | absent
  | present (ariaDisabled : Option String)
  deriving DecidableEq, Repr

/-- What `scrapePages` reads from one listing page -/
structure Page where
  items : List Element
  next : NextButton
  deriving DecidableEq, Repr

/-- Answer of the listing source to `axios.get` for one page number. `httpError` is a thrown
error carrying `err.response.status`; `otherError` is a thrown error without `err.response`
(timeout, connection reset). -/
inductive FetchResult where
  | ok (page : Page)
  | httpError (status : Nat)
  | otherError
  deriving DecidableEq, Repr

/-- Some match of the regular expression `/\/itm\/\d{9,}/` starts at the head of `cs` -/
def itemPathAt (cs : List Char) : Bool :=
  "/itm/".toList.isPrefixOf cs && decide (9 ≤ ((cs.drop 5).takeWhile Char.isDigit).length)

/-- Value of `url.match(/\/itm\/\d{9,}/)` as a truth value: the pattern matches somewhere -/
def matchesItemPath : List Char → Bool
  | [] => false
  | c :: cs => itemPathAt (c :: cs) || matchesItemPath cs

/-- Value of `url.includes('/itm/')` -/
def includesItm : List Char → Bool
  | [] => false
  | c :: cs => "/itm/".toList.isPrefixOf (c :: cs) || includesItm cs

/-- The rewriting `if (url.startsWith('https://ebay.com/')) url = url.replace(...)` -/
def normalizeHost (url : List Char) : List Char :=
  if "https://ebay.com/".toList.isPrefixOf url then
    "https://www.ebay.com/".toList ++ url.drop "https://ebay.com/".length
  else url

/-- Value of `url.split('?')[0]` -/
def stripQuery (url : List Char) : List Char :=
  url.takeWhile (fun c => c != '?')

/-- Body of the `.each` callback for the element at `index`: the link pushed to
`link_products`, or `none` when the callback returns without pushing -/
def keepLink (index : Nat) (element : Element) : Option String :=
  -- if (index === 0) return;
  if index = 0 then none
  else
    -- let url = productElement.find('.s-item__link').attr('href') || '';
    let url := normalizeHost (element.href.getD "").toList
    -- if (!url || !url.includes('/itm/') || !url.match(/\/itm\/\d{9,}/)) return;
    if url.isEmpty || !includesItm url || !matchesItemPath url then none
    else some (String.mk (stripQuery url))

/-- The array `link_products` built by `.each` from the elements at indices `index`, `index + 1`, ... -/
def linkProductsFrom : Nat → List Element → List String
  | _, [] => []
  | index, element :: rest =>
    match keepLink index element with
    | some link => link :: linkProductsFrom (index + 1) rest
    | none => linkProductsFrom (index + 1) rest

/-- The array `link_products` of one page -/
def linkProducts (items : List Element) : List String :=
  linkProductsFrom 0 items

/-- Value of `!nextButton.length || isDisabled` -/
def NextButton.noMore : NextButton → Bool
  | .absent => true
  | .present ariaDisabled => ariaDisabled == some "true"

/-- Variables of the pagination loop, with the log of the page numbers requested so far -/
structure PagerState where
  allLinks : List String
  currentPage : Nat
  hasMorePages : Bool
  fetched : List Nat
  deriving DecidableEq, Repr

/-- One pass through the `try`/`catch` and the increment `currentPage++` -/
def scrapeBody (source : Nat → FetchResult) (st : PagerState) : PagerState :=
  let st := { st with fetched := st.fetched ++ [st.currentPage] }
  let st :=
    match source st.currentPage with
    | .ok page =>
      let link_products := linkProducts page.items
      if link_products.length = 0 then { st with hasMorePages := false }
      else
        let st := { st with allLinks := st.allLinks ++ link_products }
        if page.next.noMore then { st with hasMorePages := false } else st
    | .httpError status =>
      -- [404, 500].includes(err.response.status)
      if status = 404 ∨ status = 500 then { st with hasMorePages := false } else st
    | .otherError => st
  { st with currentPage := st.currentPage + 1 }

/-- Value of `maxPages !== null && currentPage > maxPages` -/
def pastLimit (maxPages : Option Nat) (currentPage : Nat) : Bool :=
  match maxPages with
  | none => false
  | some n => decide (n < currentPage)

/-- The loop `while (hasMorePages) { ... }`, at most `fuel` evaluations of its condition;
`none` when the fuel runs out before the loop is left -/
def scrapeLoop (source : Nat → FetchResult) (maxPages : Option Nat) :
    Nat → PagerState → Option PagerState
  | 0, _ => none
  | fuel + 1, st =>
    if st.hasMorePages then
      if pastLimit maxPages st.currentPage then some st
      else scrapeLoop source maxPages fuel (scrapeBody source st)
    else some st

/-- What a call of `scrapePages` did: the links returned and the pages requested -/
structure Crawl where
  links : List String
  fetched : List Nat
  deriving DecidableEq, Repr

/-- `scrapePages(baseUrl, maxPages)` against a listing source; `maxPages = none` stands for
the default value `null` -/
def scrapePages (source : Nat → FetchResult) (maxPages : Option Nat) (fuel : Nat) :
    Option Crawl :=
  (scrapeLoop source maxPages fuel
      { allLinks := [], currentPage := 1, hasMorePages := true, fetched := [] }).map
    (fun st => { links := st.allLinks, fetched := st.fetched })

/-- A fetch after which `hasMorePages` is false -/
def stopsPagination : FetchResult → Bool
  | .ok page => (linkProducts page.items).length = 0 || page.next.noMore
  | .httpError status => decide (status = 404 ∨ status = 500)
  | .otherError => false

/-- A listing page with one product and an enabled next-page link -/
def endlessPage : Page :=
  { items := [{ href := none }, { href := some "https://www.ebay.com/itm/123456789" }]
    next := .present none }

/-- A listing whose second element carries an item path only inside its query string -/
def queryOnlyItems : List Element :=
  [ { href := some "https://www.ebay.com/itm/111111111" },
    { href := some "https://www.ebay.com/sch/i.html?next=/itm/123456789" } ]

/-- Consistency of the pagination variables: the pages requested so far are `1`, ...,
`currentPage - 1`, each once and in increasing order -/
def PagerState.wf (st : PagerState) : Prop :=
  1 ≤ st.currentPage ∧ st.fetched = List.range' 1 (st.currentPage - 1)

/-- The listing source all of whose pages are `endlessPage` -/
def endlessSource : Nat → FetchResult :=
  fun _ => .ok endlessPage

/-! ## Item content, `scrapeProduct` and `waitForContent` (index.js 150-265) -/

/-- The object `fixedElements` read from an item page -/
structure FixedElements where
  mainContent : String
  tabsContent : String
  deriving DecidableEq, Repr

/-- The object `{ url, fixedElements }` returned by `scrapeProduct` -/
structure ProductData where
  url : String
  fixedElements : FixedElements
  deriving DecidableEq, Repr

/-- Truth value of `fixedElements.mainContent && fixedElements.tabsContent`: a string is
truthy when it is not empty -/
def FixedElements.complete (fixedElements : FixedElements) : Bool :=
  fixedElements.mainContent != "" && fixedElements.tabsContent != ""

/-- `scrapeProduct(productUrl, browserInstance)`, as the outcome of the promise it returns.
The browser session is given by its answer to call number `call`:
`fulfilled (some fixedElements)` when the page evaluation yields the two fragments,
`fulfilled none` when the `try` block throws, in which case the `catch` returns `null`, and
`rejected reason` when `page.close()` throws in the `finally` block, which replaces the
pending return and rejects the promise. -/
def scrapeProduct (browser : Nat → Outcome (Option FixedElements) String)
    (productUrl : String) (call : Nat) : Outcome (Option ProductData) String :=
  match browser call with
  | .fulfilled (some fixedElements) =>
    .fulfilled (some { url := productUrl, fixedElements := fixedElements })
  | .fulfilled none => .fulfilled none
  | .rejected reason => .rejected reason

/-- The loop `while (retries < maxRetries)` of `waitForContent` with `remaining` standing for
`maxRetries - retries`, and the `return productData` after it. A re-extraction that rejects
is not caught: the `await` throws and `waitForContent` rejects with the same reason. -/
def retryLoop (productData : ProductData)
    (browser : Nat → Outcome (Option FixedElements) String) :
    Nat → Nat → Outcome ProductData String
  | 0, _ => .fulfilled productData
  | remaining + 1, retries =>
    match scrapeProduct browser productData.url retries with
    | .fulfilled (some newProductData) =>
      if newProductData.fixedElements.complete then .fulfilled newProductData
      else retryLoop productData browser remaining (retries + 1)
    | .fulfilled none => retryLoop productData browser remaining (retries + 1)
    | .rejected reason => .rejected reason

/-- `waitForContent(productData, browserInstance, maxRetries)`, as the outcome of the promise
it returns; `browser retries` answers the re-extraction made when the counter `retries` has
that value -/
def waitForContent (productData : ProductData)
    (browser : Nat → Outcome (Option FixedElements) String) (maxRetries : Nat) :
    Outcome ProductData String :=
  if productData.fixedElements.complete then .fulfilled productData
  else retryLoop productData browser maxRetries 0

/-- Content given to `waitForContent` in the exhaustion example: both fragments empty -/
def emptyContent : ProductData :=
  { url := "https://www.ebay.com/itm/123456789"
    fixedElements := { mainContent := "", tabsContent := "" } }

/-- Session of the exhaustion example: every re-extraction finds the main fragment only -/
def mainOnlyBrowser : Nat → Outcome (Option FixedElements) String :=
  fun _ => .fulfilled (some { mainContent := "<h1>Nike</h1>", tabsContent := "" })

/-- Session whose first re-extraction rejects: `page.close()` throws -/
def closeThrowsBrowser : Nat → Outcome (Option FixedElements) String :=
  fun _ => .rejected "Protocol error: Target closed"

/-! ## Records and `processLink` (index.js 461-502) -/

/-- A JSON value as far as the pipeline looks at it: strings are compared with links, every
other value (number, boolean, null, array, object) is only carried along -/
inductive JsonValue where
  | str (s : String)
  | other (code : Nat)
  deriving DecidableEq, Repr

/-- A JSON object: attribute names with their values, in property order -/
abbrev Record := List (String × JsonValue)

/-- Value of `record[key]`, `none` for `undefined` -/
def Record.get : Record → String → Option JsonValue
  | [], _ => none
  | (k, v) :: rest, key => if k = key then some v else Record.get rest key

/-- Assignment `record[key] = value`: an attribute already there keeps its place -/
def Record.set : Record → String → JsonValue → Record
  | [], key, value => [(key, value)]
  | (k, v) :: rest, key, value =>
    if k = key then (k, value) :: rest else (k, v) :: Record.set rest key value

/-- The object literal `{ ...target, ...source }`: the attributes of `source` are assigned
onto `target` one after the other -/
def spread (target source : Record) : Record :=
  source.foldl (fun acc kv => acc.set kv.1 kv.2) target

/-- The collaborators of one job: the browser session's answers to the successive
`scrapeProduct` calls of the job, and the answer of `llm_process` (`none` for `null`;
`llm_process` catches every error itself) -/
structure JobEnv where
  browser : Nat → Outcome (Option FixedElements) String
  llm : ProductData → Option Record

/-- `processLink(link)`: the value the job's promise is fulfilled with, `none` for `null`.
A rejection of `scrapeProduct` or of `waitForContent` is caught by the `catch` of
`processLink`, which returns `null`. -/
def processLink (env : JobEnv) (link : String) : Option Record :=
  -- let productData = await scrapeProduct(link, browser);
  match scrapeProduct env.browser link 0 with
  | .rejected _ => none
  | .fulfilled none => none
  | .fulfilled (some productData) =>
    -- if (!mainContent || !tabsContent) productData = await waitForContent(productData, browser);
    let awaited : Outcome ProductData String :=
      if !productData.fixedElements.complete then
        waitForContent productData (fun retries => env.browser (retries + 1)) 2
      else .fulfilled productData
    match awaited with
    | .rejected _ => none
    | .fulfilled productData =>
      -- const processedData = await llm_process(productData);
      match env.llm productData with
      | none => none
      -- return { url: productData.url, ...processedData };
      | some processedData => some (spread [("url", .str productData.url)] processedData)

/-- Job of the originating-URL example: the page is complete and the normalisation result
carries a `url` attribute of its own -/
def urlOverrideJob : JobEnv :=
  { browser := fun _ =>
      .fulfilled (some { mainContent := "<h1>Nike</h1>", tabsContent := "<p>specs</p>" })
    llm := fun _ =>
      some [("nama_produk", .str "Nike"), ("url", .str "https://www.ebay.com/itm/999999999")] }

/-! ## `main` (index.js 406-534) -/

/-- What reading `output.json` gives at the start of `main`. `absent`: `fs.readFile` fails
because there is no file; `unreadable`: it fails otherwise, or `JSON.parse` throws;
`parsed`: the array of product objects the file holds. -/
inductive StoreRead where
  | absent
  | unreadable
  | parsed (products : List Record)
  deriving DecidableEq, Repr

/-- Value of `existingProducts` after the inner `try`/`catch`: the `catch` leaves it `[]` -/
def existingProducts : StoreRead → List Record
  | .parsed products => products
  | .absent => []
  | .unreadable => []

/-- Members of `new Set(existingProducts.map(p => p.url))`; `none` is `undefined` -/
def scrapedUrls (existing : List Record) : List (Option JsonValue) :=
  existing.map (fun p => p.get "url")

/-- Value of `productLinks.filter(link => !scrapedUrls.has(link))` -/
def unseenLinks (existing : List Record) (productLinks : List String) : List String :=
  productLinks.filter (fun link => !decide (some (JsonValue.str link) ∈ scrapedUrls existing))

/-- Value of `linksToScrape`: the unseen links cut by `.slice(0,3)` -/
def linksToScrape (existing : List Record) (productLinks : List String) : List String :=
  (unseenLinks existing productLinks).take 3

/-- The unseen batch in the words of the specification: the links, in crawl order, that are
not the `url` of any persisted entry, truncated to the first 3 -/
def unseenBatchSpec (persisted : List Record) (crawl : List String) : List String :=
  (crawl.filter (fun link => decide (∀ entry ∈ persisted, entry.get "url" ≠ some (.str link)))).take 3

/-- The array `scrapingTasks`, from job number `index` on. The task
`async () => processLink(link)` is given by the outcome of its promise: `processLink` catches
every error, so the promise is fulfilled with the value `processLink` returns. -/
def scrapingTasksFrom (jobs : Nat → JobEnv) :
    Nat → List String → List (Outcome (Option Record) String)
  | _, [] => []
  | index, link :: rest =>
    .fulfilled (processLink (jobs index) link) :: scrapingTasksFrom jobs (index + 1) rest

/-- The loop over `results` filling `newProducts`: a fulfilled outcome with a truthy value is
pushed, a fulfilled `null` is dropped, a rejected outcome is logged -/
def collectNew {ε : Type} : List (Outcome (Option Record) ε) → List Record
  | [] => []
  | .fulfilled (some value) :: rest => value :: collectNew rest
  | .fulfilled none :: rest => collectNew rest
  | .rejected _ :: rest => collectNew rest

/-- Everything outside `main` that a run of `main` depends on -/
structure MainEnv where
  /-- the outcome of reading `output.json` -/
  store : StoreRead
  /-- the listing source -/
  source : Nat → FetchResult
  /-- whether `puppeteer.launch` succeeds -/
  launchOk : Bool
  /-- the collaborators of each job, by job number -/
  jobs : Nat → JobEnv
  /-- the order in which the job queue delivers the executor's events -/
  schedule : List Event
  /-- whether `browser.close` succeeds -/
  closeOk : Bool
  /-- whether `fs.writeFile` succeeds -/
  writeOk : Bool

/-- The part of `main` after `scrapePages` has returned `productLinks`: the array written to
`output.json`, `none` when the run ends without writing -/
def mainFrom (env : MainEnv) (productLinks : List String) : Option (List Record) :=
  let existing := existingProducts env.store
  let links := linksToScrape existing productLinks
  -- if (linksToScrape.length === 0) return;
  if links.length = 0 then none
  -- an exception of puppeteer.launch reaches the outer catch
  else if !env.launchOk then none
  else
    -- const results = await runWithConcurrency(scrapingTasks, 3);
    match runWithConcurrency (scrapingTasksFrom env.jobs 0 links) 3 env.schedule with
    | some s =>
      match s.driver with
      | .done results =>
        let newProducts := collectNew results
        -- await browser.close(); const allProducts = [...existingProducts, ...newProducts];
        if env.closeOk && env.writeOk then some (existing ++ newProducts) else none
      | _ => none
    | none => none

/-- A run of `main`: `scrapePages(baseUrl, 5)` needs at most 6 evaluations of its loop condition -/
def main (env : MainEnv) : Option (List Record) :=
  match scrapePages env.source (some 5) 6 with
  | some crawl => mainFrom env crawl.links
  | none => none

/-- The `url` attributes of a collection, entry by entry -/
def urlsOf (collection : List Record) : List (Option JsonValue) :=
  collection.map (fun p => p.get "url")

/-- A job that succeeds: complete page, normalisation result without a `url` attribute -/
def plainJob : JobEnv :=
  { browser := fun _ =>
      .fulfilled (some { mainContent := "<h1>Nike</h1>", tabsContent := "<p>specs</p>" })
    llm := fun _ => some [("nama_produk", .str "Nike")] }

/-- A listing source with a single page showing the given `href`s after the template element -/
def singlePage (hrefs : List String) : Nat → FetchResult :=
  fun _ => .ok { items := { href := none } :: hrefs.map (fun h => { href := some h }),
                 next := .absent }

/-- Schedule of a batch of two jobs under limit 3: both are started, then settle in order -/
def twoJobsSchedule : List Event :=
  [.advance, .advance, .advance, .complete 0, .callback 0, .complete 1, .callback 1, .settleAll]

/-- Schedule of a batch of three jobs under limit 3: the race is awaited after the third start -/
def threeJobsSchedule : List Event :=
  [.advance, .advance, .advance, .complete 0, .callback 0, .resume, .advance,
   .complete 1, .callback 1, .complete 2, .callback 2, .settleAll]

/-- Schedule of a batch of one job -/
def oneJobSchedule : List Event :=
  [.advance, .advance, .complete 0, .callback 0, .settleAll]

/-- Run in which the one listing page shows the same item twice; nothing is persisted yet -/
def repeatedLinkEnv : MainEnv :=
  { store := .absent
    source := singlePage ["https://www.ebay.com/itm/123456789", "https://www.ebay.com/itm/123456789"]
    launchOk := true
    jobs := fun _ => plainJob
    schedule := twoJobsSchedule
    closeOk := true
    writeOk := true }

/-- First run of the idempotence example: four new items on the listing page -/
def fourLinksEnv : MainEnv :=
  { store := .absent
    source := singlePage ["https://www.ebay.com/itm/111111111", "https://www.ebay.com/itm/222222222",
                          "https://www.ebay.com/itm/333333333", "https://www.ebay.com/itm/444444444"]
    launchOk := true
    jobs := fun _ => plainJob
    schedule := threeJobsSchedule
    closeOk := true
    writeOk := true }

/-- The record `plainJob` yields for a link -/
def plainRecord (link : String) : Record :=
  [("url", .str link), ("nama_produk", .str "Nike")]

/-- What the first run of the idempotence example writes -/
def fourLinksFirst : List Record :=
  [plainRecord "https://www.ebay.com/itm/111111111", plainRecord "https://www.ebay.com/itm/222222222",
   plainRecord "https://www.ebay.com/itm/333333333"]

/-- Second run of the idempotence example: same listing, starting from what the first wrote -/
def fourLinksSecondEnv : MainEnv :=
  { fourLinksEnv with store := .parsed fourLinksFirst, schedule := oneJobSchedule }

/-- What `scrapePages(baseUrl, 5)` returns against the listing of `fourLinksEnv` -/
def fourLinksCrawl : Crawl :=
  { links := ["https://www.ebay.com/itm/111111111", "https://www.ebay.com/itm/222222222",
              "https://www.ebay.com/itm/333333333", "https://www.ebay.com/itm/444444444"]
    fetched := [1] }

/-- Run of the idempotence witness: three new items on the listing page, all scraped -/
def threeLinksEnv : MainEnv :=
  { fourLinksEnv with
    source := singlePage ["https://www.ebay.com/itm/111111111",
                          "https://www.ebay.com/itm/222222222",
                          "https://www.ebay.com/itm/333333333"] }

/-- What `scrapePages(baseUrl, 5)` returns against the listing of `threeLinksEnv` -/
def threeLinksCrawl : Crawl :=
  { links := ["https://www.ebay.com/itm/111111111", "https://www.ebay.com/itm/222222222",
              "https://www.ebay.com/itm/333333333"]
    fetched := [1] }

/-! ## Pagination: the state reached at a given page -/

/-- The links one fetch adds to `allLinks` when it does not end pagination: those of the page
for a response, nothing for a failed fetch -/
def fetchedLinks : FetchResult → List String
  | .ok page => linkProducts page.items
  | .httpError _ => []
  | .otherError => []

/-- The links accumulated from pages `1 .. m`, in page order -/
def linksUpTo (source : Nat → FetchResult) : Nat → List String
  | 0 => []
  | m + 1 => linksUpTo source m ++ fetchedLinks (source (m + 1))

/-- The loop variables after pages `1 .. m` have been fetched without ending pagination -/
def pagerAfter (source : Nat → FetchResult) (m : Nat) : PagerState :=
  { allLinks := linksUpTo source m, currentPage := m + 1, hasMorePages := true,
    fetched := List.range' 1 m }

/-- A listing whose second page fails with status 503 and whose third page is the last -/
def unavailableSource : Nat → FetchResult
  | 1 => .ok { items := [{ href := none }, { href := some "https://www.ebay.com/itm/111111111" }],
               next := .present none }
  | 2 => .httpError 503
  | _ => .ok { items := [{ href := none }, { href := some "https://www.ebay.com/itm/333333333" }],
               next := .absent }

/-- A listing whose second page fails with status 404 -/
def goneSource : Nat → FetchResult
  | 1 => .ok { items := [{ href := none }, { href := some "https://www.ebay.com/itm/111111111" }],
               next := .present none }
  | 2 => .httpError 404
  | _ => .ok { items := [{ href := none }, { href := some "https://www.ebay.com/itm/333333333" }],
               next := .absent }

/-! ## `main`: the merge in the words of the specification -/

/-- The truthy value of a fulfilled outcome; `none` for a fulfilled `null` and for a
rejected outcome -/
def truthyValue {ε : Type} : Outcome (Option Record) ε → Option Record
  | .fulfilled value => value
  | .rejected _ => none

/-- The truthy values of the fulfilled outcomes, in the order of the outcomes -/
def truthyValues {ε : Type} (results : List (Outcome (Option Record) ε)) : List Record :=
  results.filterMap truthyValue

/-- Run with a store that exists but does not parse: one new item on the listing page -/
def unreadableStoreEnv : MainEnv :=
  { store := .unreadable
    source := singlePage ["https://www.ebay.com/itm/111111111"]
    launchOk := true
    jobs := fun _ => plainJob
    schedule := oneJobSchedule
    closeOk := true
    writeOk := true }

/-! # Properties -/

/-! ## Executor: invariants -/

theorem countP_set_le {β : Type} (q : β → Bool) :
    ∀ (l : List β) (i : Nat) (a b : β), l[i]? = some b → (q a = true → q b = true) →
      (l.set i a).countP q ≤ l.countP q := by
  intro l
  induction l with
  | nil => intro i a b h; simp at h
  | cons x xs ih =>
    intro i a b h hq
    cases i with
    | zero =>
      simp at h
      subst h
      simp only [List.set_cons_zero, List.countP_cons]
      by_cases ha : q a = true
      · simp [ha, hq ha]
      · simp [ha]
    | succ j =>
      simp at h
      simp only [List.set_cons_succ, List.countP_cons]
      have := ih j a b h hq
      omega

theorem countP_set_drop {β : Type} (q : β → Bool) :
    ∀ (l : List β) (i : Nat) (a b : β), l[i]? = some b → q b = true → q a = false →
      (l.set i a).countP q + 1 = l.countP q := by
  intro l
  induction l with
  | nil => intro i a b h; simp at h
  | cons x xs ih =>
    intro i a b h hb ha
    cases i with
    | zero =>
      simp at h
      subst h
      simp [List.countP_cons, hb, ha]
    | succ j =>
      simp at h
      simp only [List.set_cons_succ, List.countP_cons]
      have := ih j a b h hb ha
      omega

theorem raceOf_not_fulfilled (slots : List (Slot α ε)) (v : α) :
    raceOf slots ≠ some (.fulfilled v) := by
  induction slots with
  | nil => simp [raceOf]
  | cons sl rest ih =>
    unfold raceOf
    split
    · simp
    · exact ih

theorem inv_init (k : Nat) (hk : 1 ≤ k) (tasks : List (Outcome α ε)) :
    Inv k (ExecState.init tasks) := by
  refine ⟨?_, ?_, ?_, ?_⟩
  · simp [ExecState.init]
  · simp [ExecState.init, executingSize]
  · intro _; simp only [ExecState.init, executingSize, List.countP_nil]; omega
  · intro v h; simp [ExecState.init] at h

theorem slots_ok_set {l : List (Slot α ε)} {i : Nat} {a : Slot α ε}
    (h : ∀ sl ∈ l, sl.ok) (ha : a.ok) : ∀ sl ∈ l.set i a, sl.ok := by
  intro sl hsl
  rcases List.mem_or_eq_of_mem_set hsl with h1 | h1
  · exact h sl h1
  · exact h1 ▸ ha

theorem inv_step (k : Nat) (s s' : ExecState α ε) (e : Event)
    (hinv : Inv k s) (hstep : step k s e = some s') : Inv k s' := by
  obtain ⟨hok, hle, hloop, hraced⟩ := hinv
  cases e with
  | advance =>
    simp only [step] at hstep
    split at hstep
    · rename_i task rest hd ht
      have hsize : executingSize (s.slots ++
          [({ job := task, taskSettled := false, p := none, inExecuting := true } : Slot α ε)])
          = executingSize s.slots + 1 := by
        simp [executingSize, List.countP_append]
      have hlt := hloop hd
      have hok' : ∀ sl ∈ s.slots ++
          [({ job := task, taskSettled := false, p := none, inExecuting := true } : Slot α ε)],
          sl.ok := by
        intro sl hsl
        rcases List.mem_append.mp hsl with h1 | h1
        · exact hok sl h1
        · simp at h1; subst h1; simp [Slot.ok]
      split at hstep
      · simp only [Option.some.injEq] at hstep
        subst hstep
        refine ⟨hok', ?_, ?_, ?_⟩
        · simp only [hsize]; omega
        · intro h; simp at h
        · intro v h
          simp only [Driver.awaitingRace.injEq] at h
          exact absurd h (raceOf_not_fulfilled _ v)
      · rename_i hnot
        simp only [Option.some.injEq] at hstep
        subst hstep
        refine ⟨hok', ?_, ?_, ?_⟩
        · simp only [hsize]; omega
        · intro _; simp only [hsize] at hnot ⊢; omega
        · intro v h; simp at h
    · simp only [Option.some.injEq] at hstep
      subst hstep
      refine ⟨hok, hle, ?_, ?_⟩ <;> simp
    · simp at hstep
  | complete i =>
    simp only [step] at hstep
    split at hstep
    · rename_i sl hsl
      split at hstep
      · simp at hstep
      · rename_i hts
        simp only [Option.some.injEq] at hstep
        subst hstep
        have hmem : sl ∈ s.slots := List.getElem?_mem hsl
        have hcount : executingSize (s.slots.set i { sl with taskSettled := true })
            ≤ executingSize s.slots :=
          countP_set_le _ _ _ _ _ hsl (by simp)
        refine ⟨slots_ok_set hok ?_, ?_, ?_, ?_⟩
        · exact ⟨by simp, (hok sl hmem).2⟩
        · exact le_trans hcount hle
        · intro h; exact lt_of_le_of_lt hcount (hloop h)
        · intro v h; exact lt_of_le_of_lt hcount (hraced v h)
    · simp at hstep
  | callback i =>
    simp only [step] at hstep
    split at hstep
    · rename_i sl hsl
      split at hstep
      · rename_i hcond
        simp only [Bool.and_eq_true, Option.isNone_iff_eq_none] at hcond
        simp only [Option.some.injEq] at hstep
        subst hstep
        have hmem : sl ∈ s.slots := List.getElem?_mem hsl
        have hin : sl.inExecuting = true := (hok sl hmem).2 hcond.2
        have hreact_ok : sl.react.ok := by
          unfold Slot.react
          split <;> simp [Slot.ok, hcond.1]
        cases hjob : sl.job with
        | fulfilled v =>
          have hcount : executingSize (s.slots.set i sl.react) + 1 = executingSize s.slots :=
            countP_set_drop _ _ _ _ _ hsl hin (by simp [Slot.react, hjob])
          refine ⟨slots_ok_set hok hreact_ok, ?_, ?_, ?_⟩
          · simp only; omega
          · intro _; simp only; omega
          · intro _ _; simp only; omega
        | rejected r =>
          have hcount : executingSize (s.slots.set i sl.react) ≤ executingSize s.slots :=
            countP_set_le _ _ _ _ _ hsl (by simp [hin])
          refine ⟨slots_ok_set hok hreact_ok, ?_, ?_, ?_⟩
          · exact le_trans hcount hle
          · intro h
            refine lt_of_le_of_lt hcount (hloop ?_)
            revert h
            cases s.driver with
            | awaitingRace race => cases race <;> simp
            | _ => simp
          · intro v h
            refine lt_of_le_of_lt hcount (hraced v ?_)
            revert h
            cases s.driver with
            | awaitingRace race => cases race <;> simp [hjob]
            | _ => simp
      · simp at hstep
    · simp at hstep
  | resume =>
    simp only [step] at hstep
    split at hstep
    · rename_i v hd
      simp only [Option.some.injEq] at hstep
      subst hstep
      exact ⟨hok, hle, fun _ => hraced v hd, by simp⟩
    · simp only [Option.some.injEq] at hstep
      subst hstep
      exact ⟨hok, hle, by simp, by simp⟩
    · simp at hstep
  | settleAll =>
    simp only [step] at hstep
    split at hstep
    · split at hstep
      · simp only [Option.some.injEq] at hstep
        subst hstep
        exact ⟨hok, hle, by simp, by simp⟩
      · simp at hstep
    · simp at hstep

theorem inv_run (k : Nat) (schedule : List Event) :
    ∀ (s s' : ExecState α ε), Inv k s → run k s schedule = some s' → Inv k s' := by
  induction schedule with
  | nil => intro s s' h hr; simp [run] at hr; exact hr ▸ h
  | cons e es ih =>
    intro s s' h hr
    simp only [run] at hr
    split at hr
    · rename_i s1 hs1
      exact ih s1 s' (inv_step k s s1 e h hs1) hr
    · simp at hr

theorem inFlight_le_executingSize (slots : List (Slot α ε)) (h : ∀ sl ∈ slots, sl.ok) :
    inFlight slots ≤ executingSize slots := by
  apply List.countP_mono_left
  intro sl hsl hts
  simp only [Bool.not_eq_true'] at hts
  exact (h sl hsl).2 ((h sl hsl).1 hts)

theorem map_job_set (l : List (Slot α ε)) (i : Nat) (a b : Slot α ε)
    (h : l[i]? = some b) (hjob : a.job = b.job) :
    (l.set i a).map (fun sl => sl.job) = l.map (fun sl => sl.job) := by
  induction l generalizing i with
  | nil => simp
  | cons x xs ih =>
    cases i with
    | zero => simp at h; subst h; simp [hjob]
    | succ j => simp at h; simp [ih j h]

theorem allSettled_eq (l : List (Slot α ε)) (h : ∀ sl ∈ l, ∀ o, sl.p = some o → o = sl.job) :
    ∀ outs, allSettled l = some outs → outs = l.map (fun sl => sl.job) := by
  induction l with
  | nil => intro outs ho; simp [allSettled] at ho; simp [ho]
  | cons x xs ih =>
    intro outs ho
    unfold allSettled at ho
    split at ho
    · rename_i o os hp hrest
      simp only [Option.some.injEq] at ho
      subst ho
      have h1 := h x (List.mem_cons_self _ _) o hp
      have h2 := ih (fun sl hsl => h sl (List.mem_cons_of_mem _ hsl)) os hrest
      simp [h1, h2]
    · simp at ho

theorem react_job (sl : Slot α ε) : sl.react.job = sl.job := by
  unfold Slot.react; split <;> rfl

theorem react_p (sl : Slot α ε) : sl.react.p = some sl.job := by
  unfold Slot.react; split <;> simp [*]

theorem traced_init (tasks : List (Outcome α ε)) : Traced tasks (ExecState.init tasks) := by
  refine ⟨?_, ?_, ?_, ?_⟩ <;> simp [ExecState.init]

theorem traced_step (k : Nat) (tasks0 : List (Outcome α ε)) (s s' : ExecState α ε) (e : Event)
    (ht : Traced tasks0 s) (hstep : step k s e = some s') : Traced tasks0 s' := by
  obtain ⟨hjobs, hp, hall, hdone⟩ := ht
  cases e with
  | advance =>
    simp only [step] at hstep
    split at hstep
    · rename_i task rest hd ht
      have hj : (s.slots ++
          [({ job := task, taskSettled := false, p := none, inExecuting := true } : Slot α ε)]).map
          (fun sl => sl.job) ++ rest = tasks0 := by
        rw [← hjobs, ht]; simp
      have hp' : ∀ sl ∈ s.slots ++
          [({ job := task, taskSettled := false, p := none, inExecuting := true } : Slot α ε)],
          ∀ o, sl.p = some o → o = sl.job := by
        intro sl hsl
        rcases List.mem_append.mp hsl with h1 | h1
        · exact hp sl h1
        · simp at h1; subst h1; simp
      split at hstep <;>
        (simp only [Option.some.injEq] at hstep; subst hstep;
         exact ⟨hj, hp', by simp, by simp⟩)
    · rename_i hd ht
      simp only [Option.some.injEq] at hstep
      subst hstep
      exact ⟨hjobs, hp, fun _ => ht, by simp⟩
    · simp at hstep
  | complete i =>
    simp only [step] at hstep
    split at hstep
    · rename_i sl hsl
      split at hstep
      · simp at hstep
      · simp only [Option.some.injEq] at hstep
        subst hstep
        refine ⟨?_, ?_, hall, hdone⟩
        · simp only; rw [map_job_set s.slots i { sl with taskSettled := true } sl hsl rfl]; exact hjobs
        · intro sl' hsl'
          rcases List.mem_or_eq_of_mem_set hsl' with h1 | h1
          · exact hp sl' h1
          · subst h1; exact hp sl (List.getElem?_mem hsl)
    · simp at hstep
  | callback i =>
    simp only [step] at hstep
    split at hstep
    · rename_i sl hsl
      split at hstep
      · simp only [Option.some.injEq] at hstep
        subst hstep
        refine ⟨?_, ?_, ?_, ?_⟩
        · simp only; rw [map_job_set s.slots i _ sl hsl (react_job sl)]; exact hjobs
        · intro sl' hsl'
          rcases List.mem_or_eq_of_mem_set hsl' with h1 | h1
          · exact hp sl' h1
          · subst h1
            intro o ho
            rw [react_p] at ho
            simp only [Option.some.injEq] at ho
            rw [react_job]; exact ho.symm
        · intro h
          apply hall
          revert h
          cases s.driver with
          | awaitingRace race => cases race <;> simp
          | _ => simp
        · intro outs h
          apply hdone
          revert h
          cases s.driver with
          | awaitingRace race => cases race <;> simp
          | _ => simp
      · simp at hstep
    · simp at hstep
  | resume =>
    simp only [step] at hstep
    split at hstep <;>
      first
        | (simp only [Option.some.injEq] at hstep; subst hstep;
           exact ⟨hjobs, hp, by simp, by simp⟩)
        | simp at hstep
  | settleAll =>
    simp only [step] at hstep
    split at hstep
    · rename_i hd
      split at hstep
      · rename_i outs hout
        simp only [Option.some.injEq] at hstep
        subst hstep
        refine ⟨hjobs, hp, by simp, ?_⟩
        intro outs' h
        simp only [Driver.done.injEq] at h
        subst h
        rw [allSettled_eq _ hp _ hout, ← hjobs, hall hd]
        simp
      · simp at hstep
    · simp at hstep

theorem traced_run (k : Nat) (tasks0 : List (Outcome α ε)) (schedule : List Event) :
    ∀ (s s' : ExecState α ε), Traced tasks0 s → run k s schedule = some s' → Traced tasks0 s' := by
  induction schedule with
  | nil => intro s s' h hr; simp [run] at hr; exact hr ▸ h
  | cons e es ih =>
    intro s s' h hr
    simp only [run] at hr
    split at hr
    · rename_i s1 hs1
      exact ih s1 s' (traced_step k tasks0 s s1 e h hs1) hr
    · simp at hr

/-- Whenever a run completes, its array of outcomes is the tasks' outcomes in task order -/
theorem done_outcomes (tasks : List (Outcome α ε)) (k : Nat) (schedule : List Event)
    (s : ExecState α ε) (outs : List (Outcome α ε))
    (h : runWithConcurrency tasks k schedule = some s) (hd : s.driver = .done outs) :
    outs = tasks :=
  (traced_run k tasks schedule _ s (traced_init tasks) h).done_eq outs hd

/-- C1 (concurrency ceiling). For every sequence of jobs, every limit `k ≥ 1` and every
schedule of the job queue, in the state reached the number of jobs that have been started
and whose promise has not settled is at most `k`. Every point of a run is the end of a
schedule, so this bounds the in-flight count at every point during the run. -/
theorem concurrency_ceiling (tasks : List (Outcome α ε)) (k : Nat) (hk : 1 ≤ k)
    (schedule : List Event) (s : ExecState α ε)
    (h : runWithConcurrency tasks k schedule = some s) : inFlight s.slots ≤ k := by
  have hinv := inv_run k schedule _ s (inv_init k hk tasks) h
  exact le_trans (inFlight_le_executingSize s.slots hinv.slots_ok) hinv.size_le

/-- Witness for C1: three jobs under limit 2, stopped while two of them are in flight -/
theorem concurrency_ceiling_witness :
    1 ≤ 2 ∧
    runWithConcurrency [Outcome.fulfilled 10, Outcome.rejected 7, Outcome.fulfilled 30] 2
        [.advance, .advance, .complete 0, .callback 0, .resume, .advance]
      = some ceilingExample ∧
    inFlight ceilingExample.slots ≤ 2 :=
  ⟨by decide, by decide,
    concurrency_ceiling [Outcome.fulfilled 10, Outcome.rejected 7, Outcome.fulfilled 30] 2
      (by decide) [.advance, .advance, .complete 0, .callback 0, .resume, .advance]
      ceilingExample (by decide)⟩

theorem rejectFirst_closed (e : Event)
    (he : e = .advance ∨ e = .resume ∨ e = .settleAll ∨ e = .complete 0 ∨ e = .callback 0) :
    ∀ s ∈ rejectFirstStates,
      (step 1 s e).all (fun s' => decide (s' ∈ rejectFirstStates)) = true := by
  rcases he with h | h | h | h | h <;> subst h <;> decide

theorem rejectFirst_step (s : ExecState Nat Nat) (hs : s ∈ rejectFirstStates) (e : Event)
    (s' : ExecState Nat Nat) (h : step 1 s e = some s') : s' ∈ rejectFirstStates := by
  have hlen : ∀ a ∈ rejectFirstStates, a.slots.length ≤ 1 := by decide
  have hout : ∀ j : Nat, s.slots[j + 1]? = none := by
    intro j
    apply List.getElem?_eq_none
    have := hlen s hs
    omega
  have close : (e = .advance ∨ e = .resume ∨ e = .settleAll ∨ e = .complete 0 ∨
      e = .callback 0) → s' ∈ rejectFirstStates := by
    intro he
    have := rejectFirst_closed e he s hs
    rw [h] at this
    simpa using this
  cases e with
  | advance => exact close (by simp)
  | resume => exact close (by simp)
  | settleAll => exact close (by simp)
  | complete i =>
    cases i with
    | zero => exact close (by simp)
    | succ j => simp [step, hout j] at h
  | callback i =>
    cases i with
    | zero => exact close (by simp)
    | succ j => simp [step, hout j] at h

/-- Under limit 1 a first job that rejects ends every run of `rejectFirst`: whatever the
schedule, the second job is never started and the run never yields an array of outcomes. -/
theorem rejectFirst_never_done (schedule : List Event) (s : ExecState Nat Nat)
    (h : runWithConcurrency rejectFirst 1 schedule = some s) :
    s.slots.length ≤ 1 ∧ ∀ outs, s.driver ≠ .done outs := by
  have hmem : s ∈ rejectFirstStates := by
    have key : ∀ (sched : List Event) (a b : ExecState Nat Nat), a ∈ rejectFirstStates →
        run 1 a sched = some b → b ∈ rejectFirstStates := by
      intro sched
      induction sched with
      | nil => intro a b ha hr; simp [run] at hr; exact hr ▸ ha
      | cons e es ih =>
        intro a b ha hr
        simp only [run] at hr
        split at hr
        · rename_i a1 ha1
          exact ih a1 b (rejectFirst_step a ha e a1 ha1) hr
        · simp at hr
    exact key schedule _ s (by decide) h
  have hall : ∀ a ∈ rejectFirstStates, a.slots.length ≤ 1 ∧
      (match a.driver with | .done _ => false | _ => true) = true := by decide
  refine ⟨(hall s hmem).1, ?_⟩
  intro outs hd
  have := (hall s hmem).2
  rw [hd] at this
  simp at this

/-- C2 (settle-all), evaluated at the failing run: jobs `[reject 7, fulfil 10]` under limit
1. After the first job rejects, `await Promise.race(executing)` throws: the run is rejected
with reason 7, the second job is still waiting to be started and no outcome is reported. -/
theorem settle_all_broken_by_rejection :
    runWithConcurrency rejectFirst 1 [.advance, .complete 0, .callback 0, .resume]
      = some
        { tasks := [.fulfilled 10]
          slots := [{ job := .rejected 7, taskSettled := true, p := some (.rejected 7),
                      inExecuting := true }]
          driver := .failed 7 } := by
  decide

/-! ## Pagination -/

theorem scrapeBody_currentPage (source : Nat → FetchResult) (st : PagerState) :
    (scrapeBody source st).currentPage = st.currentPage + 1 := by
  simp only [scrapeBody]
  split
  · split
    · rfl
    · split <;> rfl
  · split <;> rfl
  · rfl

theorem scrapeBody_fetched (source : Nat → FetchResult) (st : PagerState) :
    (scrapeBody source st).fetched = st.fetched ++ [st.currentPage] := by
  simp only [scrapeBody]
  split
  · split
    · rfl
    · split <;> rfl
  · split <;> rfl
  · rfl

theorem scrapeBody_hasMorePages (source : Nat → FetchResult) (st : PagerState) :
    (scrapeBody source st).hasMorePages
      = (st.hasMorePages && !stopsPagination (source st.currentPage)) := by
  simp only [scrapeBody]
  split
  · rename_i page hpage
    simp only [hpage, stopsPagination]
    split
    · rename_i h0; simp [h0]
    · rename_i h0
      split
      · rename_i h1; simp [h1]
      · rename_i h1; simp [h0, h1]
  · rename_i status hstatus
    simp only [hstatus, stopsPagination]
    split
    · rename_i h0; simp [h0]
    · rename_i h0; simp [h0]
  · rename_i hother
    simp [hother, stopsPagination]

theorem scrapeBody_wf (source : Nat → FetchResult) (st : PagerState) (h : st.wf) :
    (scrapeBody source st).wf := by
  obtain ⟨h1, h2⟩ := h
  refine ⟨?_, ?_⟩
  · rw [scrapeBody_currentPage]; omega
  · rw [scrapeBody_fetched, scrapeBody_currentPage, h2]
    obtain ⟨m, hm⟩ : ∃ m, st.currentPage = m + 1 := ⟨st.currentPage - 1, by omega⟩
    rw [hm]
    simp only [Nat.add_sub_cancel]
    rw [List.range'_concat]
    simp [Nat.add_comm]

/-- With `maxPages = n` the loop is left within `n + 1` evaluations of its condition -/
theorem scrapeLoop_limit (source : Nat → FetchResult) (n : Nat) :
    ∀ (d : Nat) (st : PagerState), st.currentPage + d = n + 1 → st.wf →
      ∃ st', scrapeLoop source (some n) (d + 1) st = some st' ∧ st'.wf ∧
        st'.currentPage ≤ n + 1 := by
  intro d
  induction d with
  | zero =>
    intro st hc hwf
    refine ⟨st, ?_, hwf, by omega⟩
    have : pastLimit (some n) st.currentPage = true := by
      simp [pastLimit]; omega
    simp [scrapeLoop, this]
  | succ d ih =>
    intro st hc hwf
    by_cases hm : st.hasMorePages = true
    · have hp : pastLimit (some n) st.currentPage = false := by
        simp [pastLimit]; omega
      obtain ⟨st', h1, h2, h3⟩ := ih (scrapeBody source st)
        (by rw [scrapeBody_currentPage]; omega) (scrapeBody_wf source st hwf)
      refine ⟨st', ?_, h2, h3⟩
      rw [scrapeLoop]
      simp [hm, hp, h1]
    · refine ⟨st, ?_, hwf, by omega⟩
      rw [scrapeLoop]
      simp [hm]

/-- Without `maxPages`, a source none of whose pages stops pagination keeps the loop running -/
theorem scrapeLoop_diverges (source : Nat → FetchResult)
    (h : ∀ k, 1 ≤ k → stopsPagination (source k) = false) :
    ∀ (fuel : Nat) (st : PagerState), st.hasMorePages = true → 1 ≤ st.currentPage →
      scrapeLoop source none fuel st = none := by
  intro fuel
  induction fuel with
  | zero => intro st _ _; rfl
  | succ fuel ih =>
    intro st hm hc
    rw [scrapeLoop]
    simp only [hm, pastLimit, if_true]
    apply ih
    · rw [scrapeBody_hasMorePages, hm, h _ hc]; rfl
    · rw [scrapeBody_currentPage]; omega

/-- Without `maxPages`, the loop is left once a page that stops pagination has been fetched -/
theorem scrapeLoop_stops (source : Nat → FetchResult) (k : Nat)
    (hk : stopsPagination (source k) = true) :
    ∀ (d : Nat) (st : PagerState), st.currentPage + d = k →
      ∃ st', scrapeLoop source none (d + 2) st = some st' := by
  intro d
  induction d with
  | zero =>
    intro st hc
    by_cases hm : st.hasMorePages = true
    · refine ⟨scrapeBody source st, ?_⟩
      have hc' : st.currentPage = k := by omega
      have : (scrapeBody source st).hasMorePages = false := by
        rw [scrapeBody_hasMorePages, hc', hk]; simp
      rw [scrapeLoop]
      simp only [hm, pastLimit, if_true]
      rw [scrapeLoop]
      simp [this]
    · refine ⟨st, ?_⟩
      rw [scrapeLoop]
      simp [hm]
  | succ d ih =>
    intro st hc
    by_cases hm : st.hasMorePages = true
    · obtain ⟨st', h1⟩ := ih (scrapeBody source st) (by rw [scrapeBody_currentPage]; omega)
      refine ⟨st', ?_⟩
      rw [scrapeLoop]
      simp only [hm, pastLimit, if_true]
      exact h1
    · refine ⟨st, ?_⟩
      rw [scrapeLoop]
      simp [hm]

/-- Counterexample to C5 as stated: against a listing every page of which shows one product
and an enabled next-page link, a call without `maxPages` never returns, whatever the fuel. -/
theorem pagination_unbounded_never_returns :
    ¬ ∃ fuel, (scrapePages endlessSource none fuel).isSome = true := by
  rintro ⟨fuel, h⟩
  have hstop : ∀ k, 1 ≤ k → stopsPagination (endlessSource k) = false := by
    intro k _; simp only [endlessSource]; decide
  have := scrapeLoop_diverges endlessSource hstop fuel
    { allLinks := [], currentPage := 1, hasMorePages := true, fetched := [] } rfl (le_refl 1)
  simp [scrapePages, this] at h

/-- C5 (pagination termination), amended. For every listing source: with `maxPages = n`
supplied, `scrapePages` returns after requesting at most `n` pages; without `maxPages` it
returns exactly when some page `k ≥ 1` stops pagination (no link kept from it, no enabled
next-page element, or a fetch failing with status 404 or 500). -/
theorem pagination_termination (source : Nat → FetchResult) :
    (∀ n, ∃ crawl, scrapePages source (some n) (n + 1) = some crawl ∧
      crawl.fetched.length ≤ n) ∧
    ((∃ fuel crawl, scrapePages source none fuel = some crawl) ↔
      ∃ k, 1 ≤ k ∧ stopsPagination (source k) = true) := by
  constructor
  · intro n
    obtain ⟨st', h1, h2, h3⟩ := scrapeLoop_limit source n n
      { allLinks := [], currentPage := 1, hasMorePages := true, fetched := [] }
      (by simp [Nat.add_comm]) ⟨le_refl 1, rfl⟩
    refine ⟨{ links := st'.allLinks, fetched := st'.fetched }, by simp [scrapePages, h1], ?_⟩
    simp only [h2.2, List.length_range']
    omega
  · constructor
    · rintro ⟨fuel, crawl, h⟩
      by_contra hno
      have hstop : ∀ k, 1 ≤ k → stopsPagination (source k) = false := by
        intro k hk
        cases hs : stopsPagination (source k) with
        | false => rfl
        | true => exact absurd ⟨k, hk, hs⟩ hno
      have := scrapeLoop_diverges source hstop fuel
        { allLinks := [], currentPage := 1, hasMorePages := true, fetched := [] } rfl (le_refl 1)
      simp [scrapePages, this] at h
    · rintro ⟨k, hk, hs⟩
      obtain ⟨st', h1⟩ := scrapeLoop_stops source k hs (k - 1)
        { allLinks := [], currentPage := 1, hasMorePages := true, fetched := [] }
        (by simp only; omega)
      exact ⟨k - 1 + 2, { links := st'.allLinks, fetched := st'.fetched },
        by simp [scrapePages, h1]⟩

/-! ## Link filtering -/

theorem stripQuery_no_question (url : List Char) : '?' ∉ stripQuery url := by
  intro h
  have := List.mem_takeWhile_imp h
  simp at this

/-- Every link kept from a page is the query-stripped form of the (host-normalised) `href` of
an element other than the first one, and that `href`, before stripping, matches the pattern -/
theorem keepLink_some (index : Nat) (element : Element) (link : String)
    (h : keepLink index element = some link) :
    0 < index ∧
    matchesItemPath (normalizeHost (element.href.getD "").toList) = true ∧
    link = String.mk (stripQuery (normalizeHost (element.href.getD "").toList)) := by
  unfold keepLink at h
  split at h
  · simp at h
  · rename_i hidx
    simp only at h
    split at h
    · simp at h
    · rename_i hcond
      simp only [Bool.or_eq_true, Bool.not_eq_true', not_or, Bool.not_eq_false] at hcond
      simp only [Option.some.injEq] at h
      exact ⟨Nat.pos_of_ne_zero hidx, hcond.2, h.symm⟩

/-- The kept links contain no `?` -/
theorem linkProductsFrom_no_question (items : List Element) :
    ∀ (index : Nat) (link : String), link ∈ linkProductsFrom index items → '?' ∉ link.toList := by
  induction items with
  | nil => intro index link h; simp [linkProductsFrom] at h
  | cons element rest ih =>
    intro index link h
    unfold linkProductsFrom at h
    split at h
    · rename_i kept hk
      rcases List.mem_cons.mp h with h1 | h1
      · rw [h1, (keepLink_some index element kept hk).2.2]
        exact stripQuery_no_question _
      · exact ih _ _ h1
    · exact ih _ _ h

/-- The first matched element contributes nothing, whatever its `href` -/
theorem linkProducts_skips_first (first : Element) (rest : List Element) :
    linkProducts (first :: rest) = linkProductsFrom 1 rest := by
  simp [linkProducts, linkProductsFrom, keepLink]

/-- C8 (link filtering), evaluated at the failing page: the second element's `href` carries
`/itm/123456789` only inside its query string. The pattern is tested before the query is
stripped, so the link kept is `https://www.ebay.com/sch/i.html`, which does not match the
item-path pattern. The first element, a valid item link, is discarded. -/
theorem link_filtering_keeps_unmatched_link :
    linkProducts queryOnlyItems = ["https://www.ebay.com/sch/i.html"] ∧
    matchesItemPath "https://www.ebay.com/sch/i.html".toList = false ∧
    matchesItemPath "https://www.ebay.com/itm/111111111".toList = true := by
  decide

/-! ## Completeness retries -/

theorem retryLoop_finds (productData : ProductData)
    (browser : Nat → Outcome (Option FixedElements) String)
    (j : Nat) (found : FixedElements) (hj : browser j = .fulfilled (some found))
    (hfound : found.complete = true) :
    ∀ (remaining retries : Nat), retries ≤ j → j < retries + remaining →
      (∀ r, retries ≤ r → r < j →
        browser r = .fulfilled none ∨
        ∃ fe, browser r = .fulfilled (some fe) ∧ fe.complete = false) →
      retryLoop productData browser remaining retries
        = .fulfilled { url := productData.url, fixedElements := found } := by
  intro remaining
  induction remaining with
  | zero => intro retries h1 h2; omega
  | succ remaining ih =>
    intro retries h1 h2 hbefore
    rw [retryLoop]
    by_cases hr : retries = j
    · subst hr
      simp [scrapeProduct, hj, hfound]
    · have hlt : retries < j := by omega
      have hnext := ih (retries + 1) (by omega) (by omega)
        (fun r hr1 hr2 => hbefore r (by omega) hr2)
      rcases hbefore retries (le_refl _) hlt with hb | ⟨fe, hb, hfe⟩
      · simp [scrapeProduct, hb, hnext]
      · simp [scrapeProduct, hb, hfe, hnext]

theorem retryLoop_exhausted (productData : ProductData)
    (browser : Nat → Outcome (Option FixedElements) String) :
    ∀ (remaining retries : Nat),
      (∀ r, retries ≤ r → r < retries + remaining →
        browser r = .fulfilled none ∨
        ∃ fe, browser r = .fulfilled (some fe) ∧ fe.complete = false) →
      retryLoop productData browser remaining retries = .fulfilled productData := by
  intro remaining
  induction remaining with
  | zero => intro retries _; rfl
  | succ remaining ih =>
    intro retries hall
    rw [retryLoop]
    have hnext := ih (retries + 1) (fun r hr1 hr2 => hall r (by omega) (by omega))
    rcases hall retries (le_refl _) (by omega) with hb | ⟨fe, hb, hfe⟩
    · simp [scrapeProduct, hb, hnext]
    · simp [scrapeProduct, hb, hfe, hnext]

/-- A re-extraction that rejects makes `waitForContent` reject: nothing in it catches -/
theorem waitForContent_rejects (productData : ProductData)
    (browser : Nat → Outcome (Option FixedElements) String) (maxRetries : Nat) (reason : String)
    (hinc : productData.fixedElements.complete = false) (hretries : 0 < maxRetries)
    (hreject : browser 0 = .rejected reason) :
    waitForContent productData browser maxRetries = .rejected reason := by
  obtain ⟨m, rfl⟩ : ∃ m, maxRetries = m + 1 := ⟨maxRetries - 1, by omega⟩
  unfold waitForContent
  simp only [hinc, Bool.false_eq_true, if_false]
  rw [retryLoop]
  simp [scrapeProduct, hreject]

/-- C6 (retry completeness). Let `calls k` be the fragments produced by the `k`-th extraction
of an item, `calls 1` being the initial extraction handed to `waitForContent` and
`calls (r + 2)` the re-extraction made at `retries = r`, every call returning fragments. For
every `maxRetries` and every `N` with `1 ≤ N ≤ maxRetries + 1`: if calls `1 .. N - 1` are
incomplete (in particular when both fragments are empty) and call `N` has both fragments
non-empty, `waitForContent` returns the content of call `N`. -/
theorem retry_completeness (url : String) (calls : Nat → FixedElements) (maxRetries N : Nat)
    (h1 : 1 ≤ N) (h2 : N ≤ maxRetries + 1)
    (hbefore : ∀ k, 1 ≤ k → k < N → (calls k).complete = false)
    (hN : (calls N).complete = true) :
    waitForContent { url := url, fixedElements := calls 1 }
        (fun retries => .fulfilled (some (calls (retries + 2)))) maxRetries
      = .fulfilled { url := url, fixedElements := calls N } := by
  unfold waitForContent
  by_cases hN1 : N = 1
  · subst hN1
    simp [hN]
  · have h0 : (calls 1).complete = false := hbefore 1 (le_refl 1) (by omega)
    simp only [h0, Bool.false_eq_true, if_false]
    have hidx : N - 2 + 2 = N := by omega
    have := retryLoop_finds { url := url, fixedElements := calls 1 }
      (fun retries => .fulfilled (some (calls (retries + 2)))) (N - 2) (calls N)
      (by simp [hidx]) hN maxRetries 0 (Nat.zero_le _) (by omega)
      (by
        intro r _ hr
        exact Or.inr ⟨calls (r + 2), rfl, hbefore (r + 2) (by omega) (by omega)⟩)
    simpa using this

/-- Witness for C6: two retries allowed, the third call (second re-extraction) is complete -/
theorem retry_completeness_witness :
    waitForContent
        { url := "https://www.ebay.com/itm/123456789"
          fixedElements := { mainContent := "", tabsContent := "" } }
        (fun retries => .fulfilled (some
          (if retries + 2 = 3 then { mainContent := "<h1>Nike</h1>", tabsContent := "<p>specs</p>" }
           else { mainContent := "", tabsContent := "" }))) 2
      = .fulfilled
        { url := "https://www.ebay.com/itm/123456789"
          fixedElements := { mainContent := "<h1>Nike</h1>", tabsContent := "<p>specs</p>" } } :=
  retry_completeness "https://www.ebay.com/itm/123456789"
    (fun k => if k = 3 then { mainContent := "<h1>Nike</h1>", tabsContent := "<p>specs</p>" }
      else { mainContent := "", tabsContent := "" })
    2 3 (by decide) (by decide)
    (by
      intro k hk1 hk3
      have : k ≠ 3 := by omega
      simp only [this, if_false]
      decide)
    (by decide)

/-- Counterexample to C7 as stated: one retry is allowed and the re-extraction finds the main
fragment only. `waitForContent` returns the content it was given, with both fragments empty,
not the content obtained by the re-extraction. -/
theorem retry_exhaustion_returns_input :
    emptyContent.fixedElements.complete = false ∧
    scrapeProduct mainOnlyBrowser emptyContent.url 0
      = .fulfilled (some { url := emptyContent.url
                           fixedElements := { mainContent := "<h1>Nike</h1>", tabsContent := "" } }) ∧
    waitForContent emptyContent mainOnlyBrowser 1 = .fulfilled emptyContent ∧
    waitForContent emptyContent mainOnlyBrowser 1
      ≠ .fulfilled { url := emptyContent.url
                     fixedElements := { mainContent := "<h1>Nike</h1>", tabsContent := "" } } := by
  decide

/-- C7 (retry exhaustion), amended. When `waitForContent` is given incomplete content and
each of its `maxRetries` re-extractions returns, either `null` or content with an empty
fragment, `waitForContent` returns the content it was given, for every such sequence of
re-extraction results. -/
theorem retry_exhaustion (productData : ProductData)
    (browser : Nat → Outcome (Option FixedElements) String)
    (maxRetries : Nat) (hinc : productData.fixedElements.complete = false)
    (hall : ∀ r, r < maxRetries →
      browser r = .fulfilled none ∨
      ∃ fe, browser r = .fulfilled (some fe) ∧ fe.complete = false) :
    waitForContent productData browser maxRetries = .fulfilled productData := by
  unfold waitForContent
  simp only [hinc, Bool.false_eq_true, if_false]
  exact retryLoop_exhausted productData browser maxRetries 0
    (fun r _ hr => hall r (by omega))

/-- Witness for C7: the exhaustion example with two retries -/
theorem retry_exhaustion_witness :
    emptyContent.fixedElements.complete = false ∧
    waitForContent emptyContent mainOnlyBrowser 2 = .fulfilled emptyContent :=
  ⟨by decide,
    retry_exhaustion emptyContent mainOnlyBrowser 2 (by decide)
      (fun _ _ => Or.inr ⟨{ mainContent := "<h1>Nike</h1>", tabsContent := "" }, rfl,
        by decide⟩)⟩

/-! ## Records -/

theorem get_set (record : Record) (key : String) (value : JsonValue) (k : String) :
    (record.set key value).get k = if key = k then some value else record.get k := by
  induction record with
  | nil => simp [Record.set, Record.get]
  | cons kv rest ih =>
    obtain ⟨k0, v0⟩ := kv
    simp only [Record.set]
    by_cases h0 : k0 = key
    · subst h0
      by_cases h1 : k0 = k <;> simp [Record.get, h1]
    · simp only [h0, if_false, Record.get, ih]
      by_cases h1 : k0 = k
      · have : key ≠ k := fun h => h0 (h1.trans h.symm)
        simp [h1, this]
      · simp [h1]

theorem get_of_not_mem (record : Record) (k : String) (h : k ∉ record.map Prod.fst) :
    Record.get record k = none := by
  induction record with
  | nil => rfl
  | cons kv rest ih =>
    obtain ⟨k0, v0⟩ := kv
    simp only [List.map_cons, List.mem_cons, not_or] at h
    simp only [Record.get]
    rw [if_neg (fun heq => h.1 heq.symm)]
    exact ih h.2

/-- An attribute the source does not carry keeps the value it has in the target -/
theorem get_spread_of_absent (source : Record) (k : String) (h : source.get k = none) :
    ∀ target : Record, (spread target source).get k = target.get k := by
  induction source with
  | nil => intro target; rfl
  | cons kv rest ih =>
    intro target
    obtain ⟨k0, v0⟩ := kv
    simp only [Record.get] at h
    split at h
    · simp at h
    · rename_i hne
      simp only [spread, List.foldl_cons] at ih ⊢
      rw [ih h, get_set]
      simp [hne]

/-- An attribute the source carries takes the source's value (attribute names of a JSON
object are distinct) -/
theorem get_spread_of_present (source : Record) (k : String) (value : JsonValue)
    (hnodup : (source.map Prod.fst).Nodup) (h : source.get k = some value) :
    ∀ target : Record, (spread target source).get k = some value := by
  induction source with
  | nil => simp [Record.get] at h
  | cons kv rest ih =>
    intro target
    obtain ⟨k0, v0⟩ := kv
    simp only [List.map_cons, List.nodup_cons] at hnodup
    simp only [Record.get] at h
    simp only [spread, List.foldl_cons] at ih ⊢
    split at h
    · rename_i heq
      subst heq
      have habs : Record.get rest k0 = none := get_of_not_mem rest k0 hnodup.1
      have := get_spread_of_absent rest k0 habs (Record.set target k0 v0)
      simp only [spread] at this
      rw [this, get_set]
      simpa using h
    · exact ih hnodup.2 h _

/-! ## `processLink` -/

theorem retryLoop_url (productData : ProductData)
    (browser : Nat → Outcome (Option FixedElements) String) :
    ∀ (remaining retries : Nat) (result : ProductData),
      retryLoop productData browser remaining retries = .fulfilled result →
      result.url = productData.url := by
  intro remaining
  induction remaining with
  | zero =>
    intro retries result h
    simp only [retryLoop, Outcome.fulfilled.injEq] at h
    rw [← h]
  | succ remaining ih =>
    intro retries result h
    rw [retryLoop] at h
    cases hb : browser retries with
    | rejected reason => simp [scrapeProduct, hb] at h
    | fulfilled answer =>
      cases answer with
      | none =>
        simp only [scrapeProduct, hb] at h
        exact ih _ _ h
      | some fe =>
        simp only [scrapeProduct, hb] at h
        split at h
        · simp only [Outcome.fulfilled.injEq] at h
          rw [← h]
        · exact ih _ _ h

theorem waitForContent_url (productData : ProductData)
    (browser : Nat → Outcome (Option FixedElements) String) (maxRetries : Nat)
    (result : ProductData)
    (h : waitForContent productData browser maxRetries = .fulfilled result) :
    result.url = productData.url := by
  unfold waitForContent at h
  split at h
  · simp only [Outcome.fulfilled.injEq] at h
    rw [← h]
  · exact retryLoop_url _ _ _ _ _ h

/-- A record returned by `processLink` is the normalisation result spread over `{ url: link }` -/
theorem processLink_some (env : JobEnv) (link : String) (record : Record)
    (h : processLink env link = some record) :
    ∃ productData processedData, productData.url = link ∧
      env.llm productData = some processedData ∧
      record = spread [("url", .str link)] processedData := by
  unfold processLink at h
  split at h
  · simp at h
  · simp at h
  · rename_i productData hscrape
    have hurl : productData.url = link := by
      simp only [scrapeProduct] at hscrape
      split at hscrape
      · simp only [Outcome.fulfilled.injEq, Option.some.injEq] at hscrape
        rw [← hscrape]
      · simp at hscrape
      · simp at hscrape
    simp only at h
    split at h
    · simp at h
    · rename_i awaited hawait
      have hurl2 : awaited.url = link := by
        split at hawait
        · rw [waitForContent_url _ _ _ _ hawait]; exact hurl
        · simp only [Outcome.fulfilled.injEq] at hawait
          rw [← hawait]; exact hurl
      split at h
      · simp at h
      · rename_i processedData hllm
        simp only [Option.some.injEq] at h
        exact ⟨awaited, processedData, hurl2, hllm, by rw [← h, hurl2]⟩

/-- When the normalisation result has no `url` attribute of its own, the record returned by
`processLink` has the scraped link as its `url` -/
theorem processLink_url (env : JobEnv) (link : String) (record : Record)
    (hllm : ∀ productData processedData, env.llm productData = some processedData →
      processedData.get "url" = none)
    (h : processLink env link = some record) : record.get "url" = some (.str link) := by
  obtain ⟨productData, processedData, _, h2, h3⟩ := processLink_some env link record h
  rw [h3, get_spread_of_absent processedData "url" (hllm _ _ h2)]
  simp [Record.get]

/-- Attributes other than `url` are those of the normalisation result -/
theorem processLink_other (env : JobEnv) (link : String) (record : Record)
    (h : processLink env link = some record) :
    ∃ productData processedData, env.llm productData = some processedData ∧
      ∀ key value, key ≠ "url" → (processedData.map Prod.fst).Nodup →
        processedData.get key = some value → record.get key = some value := by
  obtain ⟨productData, processedData, _, h2, h3⟩ := processLink_some env link record h
  refine ⟨productData, processedData, h2, ?_⟩
  intro key value _ hnodup hget
  rw [h3]
  exact get_spread_of_present processedData key value hnodup hget _

/-- C9 (originating URL), evaluated at the failing job: the page of
`https://www.ebay.com/itm/123456789` is scraped and the normalisation result carries a
`url` attribute. The result is spread after `url: productData.url`, so its `url` wins: the
record's `url` is `https://www.ebay.com/itm/999999999`, not the URL that was scraped. -/
theorem originating_url_overridden :
    processLink urlOverrideJob "https://www.ebay.com/itm/123456789"
      = some [("url", .str "https://www.ebay.com/itm/999999999"),
              ("nama_produk", .str "Nike")] := by
  decide

/-! ## `main` -/

theorem linksToScrape_unseen (existing : List Record) (productLinks : List String)
    (link : String) (h : link ∈ linksToScrape existing productLinks) :
    link ∈ productLinks ∧ some (JsonValue.str link) ∉ urlsOf existing := by
  have := List.mem_of_mem_take h
  simp only [unseenLinks, List.mem_filter, Bool.not_eq_true', decide_eq_false_iff_not] at this
  exact this

/-- What `main` writes is the persisted entries followed by the records collected from the
jobs of the batch, in job order -/
theorem mainFrom_some (env : MainEnv) (productLinks : List String) (written : List Record)
    (h : mainFrom env productLinks = some written) :
    written = existingProducts env.store ++
      collectNew (scrapingTasksFrom env.jobs 0
        (linksToScrape (existingProducts env.store) productLinks)) := by
  unfold mainFrom at h
  simp only at h
  split at h
  · simp at h
  · split at h
    · simp at h
    · split at h
      · rename_i s hs
        split at h
        · rename_i results hd
          split at h
          · simp only [Option.some.injEq] at h
            rw [← h, done_outcomes _ 3 env.schedule s results hs hd]
          · simp at h
        · simp at h
      · simp at h

/-- The `url`s of the collected records are among the batch links, in batch order, when no
normalisation result carries a `url` attribute of its own -/
theorem collectNew_urls_sublist (jobs : Nat → JobEnv)
    (hllm : ∀ i productData processedData, (jobs i).llm productData = some processedData →
      processedData.get "url" = none) (links : List String) :
    ∀ index, (urlsOf (collectNew (scrapingTasksFrom jobs index links))).Sublist
      (links.map (fun link => some (JsonValue.str link))) := by
  induction links with
  | nil => intro index; simp [scrapingTasksFrom, collectNew, urlsOf]
  | cons link rest ih =>
    intro index
    simp only [scrapingTasksFrom, List.map_cons]
    cases hp : processLink (jobs index) link with
    | none =>
      simp only [collectNew]
      exact List.Sublist.cons _ (ih (index + 1))
    | some record =>
      simp only [collectNew, urlsOf, List.map_cons]
      rw [processLink_url (jobs index) link record (hllm index) hp]
      exact List.Sublist.cons₂ _ (ih (index + 1))

/-- When every job of the batch yields a record carrying its link as `url`, the collected
records carry exactly the batch links, in batch order -/
theorem collectNew_urls_all (jobs : Nat → JobEnv) (links : List String) :
    ∀ index,
      (∀ i link, links[i]? = some link → ∃ record,
        processLink (jobs (index + i)) link = some record ∧
        record.get "url" = some (.str link)) →
      urlsOf (collectNew (scrapingTasksFrom jobs index links))
        = links.map (fun link => some (JsonValue.str link)) := by
  induction links with
  | nil => intro index _; simp [scrapingTasksFrom, collectNew, urlsOf]
  | cons link rest ih =>
    intro index hall
    obtain ⟨record, hp, hurl⟩ := hall 0 link (by simp)
    simp only [Nat.add_zero] at hp
    simp only [scrapingTasksFrom, hp, collectNew, urlsOf, List.map_cons, hurl]
    congr 1
    apply ih (index + 1)
    intro i l hl
    have := hall (i + 1) l (by simpa using hl)
    rwa [show index + (i + 1) = index + 1 + i by omega] at this

/-- Counterexample to C3 as stated: nothing is persisted and the one listing page shows the
item `https://www.ebay.com/itm/123456789` twice. Both occurrences are unseen, both are
scraped, and the collection `main` writes holds two entries with that `url`. -/
theorem no_duplicate_urls_fails_on_repeated_link :
    (urlsOf (existingProducts repeatedLinkEnv.store)).Nodup ∧
    main repeatedLinkEnv
      = some [plainRecord "https://www.ebay.com/itm/123456789",
              plainRecord "https://www.ebay.com/itm/123456789"] ∧
    ¬ (urlsOf [plainRecord "https://www.ebay.com/itm/123456789",
               plainRecord "https://www.ebay.com/itm/123456789"]).Nodup := by
  decide

/-- C3 (no duplicate URLs), amended. For every run of `main` in which the batch handed to
the executor holds no link twice and no normalisation result carries a `url` attribute of
its own: if the persisted collection read at the start has no two entries with the same
`url`, the collection `main` writes has no two entries with the same `url`. -/
theorem no_duplicate_urls (env : MainEnv) (crawl : Crawl) (written : List Record)
    (hcrawl : scrapePages env.source (some 5) 6 = some crawl)
    (hbatch : (linksToScrape (existingProducts env.store) crawl.links).Nodup)
    (hllm : ∀ i productData processedData, (env.jobs i).llm productData = some processedData →
      processedData.get "url" = none)
    (hpersisted : (urlsOf (existingProducts env.store)).Nodup)
    (hrun : main env = some written) : (urlsOf written).Nodup := by
  simp only [main, hcrawl] at hrun
  rw [mainFrom_some env crawl.links written hrun]
  have hsub := collectNew_urls_sublist env.jobs hllm
    (linksToScrape (existingProducts env.store) crawl.links) 0
  have hinj : Function.Injective (fun link : String => some (JsonValue.str link)) := by
    intro a b hab
    simpa using hab
  simp only [urlsOf, List.map_append] at hsub ⊢
  rw [List.nodup_append]
  refine ⟨hpersisted, hsub.nodup (hbatch.map hinj), ?_⟩
  intro u hu1 hu2
  have hmem := hsub.subset hu2
  simp only [List.mem_map] at hmem
  obtain ⟨link, hlink, rfl⟩ := hmem
  exact (linksToScrape_unseen _ _ link hlink).2 hu1

theorem plainJob_llm (productData : ProductData) (processedData : Record)
    (h : plainJob.llm productData = some processedData) : processedData.get "url" = none := by
  simp only [plainJob, Option.some.injEq] at h
  rw [← h]
  decide

/-- Witness for C3: the first run of the four-item listing writes three distinct entries -/
theorem no_duplicate_urls_witness :
    main fourLinksEnv = some fourLinksFirst ∧ (urlsOf fourLinksFirst).Nodup :=
  ⟨by decide,
    no_duplicate_urls fourLinksEnv fourLinksCrawl fourLinksFirst (by decide) (by decide)
      (fun _ productData processedData h => plainJob_llm productData processedData h)
      (by decide) (by decide)⟩

/-- Counterexample to C4 as stated: the listing page shows four new items. The first run
scrapes three of them (the batch is cut to 3) and writes three entries; the second run, over
the same listing and starting from those three entries, scrapes the fourth item and writes
four entries. -/
theorem idempotent_merge_fails_past_cap :
    main fourLinksEnv = some fourLinksFirst ∧
    fourLinksSecondEnv.source = fourLinksEnv.source ∧
    fourLinksSecondEnv.store = .parsed fourLinksFirst ∧
    main fourLinksSecondEnv
      = some (fourLinksFirst ++ [plainRecord "https://www.ebay.com/itm/444444444"]) ∧
    fourLinksFirst ++ [plainRecord "https://www.ebay.com/itm/444444444"] ≠ fourLinksFirst := by
  refine ⟨by decide, rfl, rfl, by decide, by decide⟩

/-- Once every link of the crawl is the `url` of a persisted entry, no link is unseen and
`main` ends without writing -/
theorem mainFrom_all_seen (env : MainEnv) (productLinks : List String)
    (h : ∀ link ∈ productLinks, some (JsonValue.str link) ∈ urlsOf (existingProducts env.store)) :
    linksToScrape (existingProducts env.store) productLinks = [] ∧
    mainFrom env productLinks = none := by
  have hnil : unseenLinks (existingProducts env.store) productLinks = [] := by
    simp only [unseenLinks, List.filter_eq_nil_iff, Bool.not_eq_true', decide_eq_false_iff_not,
      not_not]
    exact h
  have hbatch : linksToScrape (existingProducts env.store) productLinks = [] := by
    simp [linksToScrape, hnil]
  exact ⟨hbatch, by simp [mainFrom, hbatch]⟩

/-- C4 (idempotent merge), amended. If a run of `main` writes collection `written`, its crawl
held at most 3 unseen links and each job of its batch yielded a record carrying its link as
`url`, then a second run of `main` against the same listing source, starting from `written`,
hands no link to the executor and ends without writing: the persisted collection stays
`written`. -/
theorem idempotent_merge (env1 env2 : MainEnv) (crawl : Crawl) (written : List Record)
    (hcrawl : scrapePages env1.source (some 5) 6 = some crawl)
    (hcap : (unseenLinks (existingProducts env1.store) crawl.links).length ≤ 3)
    (hjobs : ∀ i link,
      (linksToScrape (existingProducts env1.store) crawl.links)[i]? = some link →
      ∃ record, processLink (env1.jobs i) link = some record ∧
        record.get "url" = some (.str link))
    (hrun : main env1 = some written)
    (hsource : env2.source = env1.source) (hstore : env2.store = .parsed written) :
    linksToScrape written crawl.links = [] ∧ main env2 = none := by
  simp only [main, hcrawl] at hrun
  have hw := mainFrom_some env1 crawl.links written hrun
  have hurls := collectNew_urls_all env1.jobs
    (linksToScrape (existingProducts env1.store) crawl.links) 0
    (by intro i link hl; simpa using hjobs i link hl)
  have hfull : linksToScrape (existingProducts env1.store) crawl.links
      = unseenLinks (existingProducts env1.store) crawl.links := by
    simp only [linksToScrape]
    exact List.take_of_length_le hcap
  have hseen : ∀ link ∈ crawl.links,
      some (JsonValue.str link) ∈ urlsOf (existingProducts env2.store) := by
    intro link hlink
    rw [hstore]
    simp only [existingProducts]
    rw [hw]
    simp only [urlsOf, List.map_append, List.mem_append] at hurls ⊢
    by_cases hold : some (JsonValue.str link) ∈
        List.map (fun p => p.get "url") (existingProducts env1.store)
    · exact Or.inl hold
    · right
      rw [hurls, hfull]
      apply List.mem_map_of_mem
      simp only [unseenLinks, List.mem_filter, Bool.not_eq_true', decide_eq_false_iff_not]
      exact ⟨hlink, hold⟩
  have := mainFrom_all_seen env2 crawl.links hseen
  rw [hstore] at this
  simp only [existingProducts] at this
  refine ⟨this.1, ?_⟩
  simp only [main, hsource, hcrawl]
  rw [hstore] at hseen
  exact (mainFrom_all_seen env2 crawl.links (by rw [hstore]; exact hseen)).2

/-- Witness for C4: three new items, all scraped by the first run; the second run, started
from what the first wrote, writes nothing -/
theorem idempotent_merge_witness :
    main threeLinksEnv = some fourLinksFirst ∧
    linksToScrape fourLinksFirst threeLinksCrawl.links = [] ∧
    main { threeLinksEnv with store := .parsed fourLinksFirst } = none :=
  ⟨by decide,
    idempotent_merge threeLinksEnv { threeLinksEnv with store := .parsed fourLinksFirst }
      threeLinksCrawl fourLinksFirst (by decide) (by decide)
      (by
        intro i link hl
        have hi : i < 3 := by
          by_contra hge
          have : (linksToScrape (existingProducts threeLinksEnv.store)
              threeLinksCrawl.links)[i]? = none := by
            apply List.getElem?_eq_none
            have : (linksToScrape (existingProducts threeLinksEnv.store)
                threeLinksCrawl.links).length = 3 := by decide
            omega
          rw [this] at hl
          simp at hl
        have hall : ∀ j, j < 3 → ∀ l,
            (linksToScrape (existingProducts threeLinksEnv.store)
              threeLinksCrawl.links)[j]? = some l →
            (processLink plainJob l).map (fun r => r.get "url")
              = some (some (JsonValue.str l)) := by
          intro j hj l hl'
          have hj' : j = 0 ∨ j = 1 ∨ j = 2 := by omega
          rcases hj' with h | h | h <;> subst h <;>
            (have hlist : linksToScrape (existingProducts threeLinksEnv.store)
                threeLinksCrawl.links = threeLinksCrawl.links := by decide
             rw [hlist] at hl'
             simp [threeLinksCrawl] at hl'
             subst hl'
             decide)
        have := hall i hi link hl
        cases hp : processLink plainJob link with
        | none => simp [hp] at this
        | some record =>
          refine ⟨record, hp, ?_⟩
          simpa [hp] using this)
      (by decide) rfl rfl⟩

/-- C10 (unseen batch). For every persisted collection and every crawl output, the batch
`main` hands to the executor is the crawl-order sublist of the links that are not the `url`
of any persisted entry, truncated to its first 3 elements; it is a sublist of the crawl
output and contains no persisted `url`; and for persisted `[{url: 'https://x/itm/111'}]` and
crawl output `['https://x/itm/111', 'https://x/itm/222']` it is `['https://x/itm/222']`. -/
theorem unseen_batch (persisted : List Record) (crawl : List String) :
    linksToScrape persisted crawl = unseenBatchSpec persisted crawl ∧
    (linksToScrape persisted crawl).Sublist crawl ∧
    (linksToScrape persisted crawl).length ≤ 3 ∧
    (∀ link ∈ linksToScrape persisted crawl, ∀ entry ∈ persisted,
      entry.get "url" ≠ some (.str link)) ∧
    linksToScrape [[("url", .str "https://x/itm/111")]]
        ["https://x/itm/111", "https://x/itm/222"] = ["https://x/itm/222"] := by
  refine ⟨?_, ?_, ?_, ?_, by decide⟩
  · simp only [linksToScrape, unseenLinks, unseenBatchSpec, scrapedUrls]
    congr 1
    apply List.filter_congr
    intro link _
    by_cases h : some (JsonValue.str link) ∈ List.map (fun p => p.get "url") persisted
    · have h2 : ¬ ∀ entry ∈ persisted, entry.get "url" ≠ some (JsonValue.str link) := by
        intro hall
        obtain ⟨entry, hentry, heq⟩ := List.mem_map.mp h
        exact hall entry hentry heq
      simp [h, h2]
    · have h2 : ∀ entry ∈ persisted, entry.get "url" ≠ some (JsonValue.str link) := by
        intro entry hentry heq
        exact h (List.mem_map.mpr ⟨entry, hentry, heq⟩)
      simp only [h, decide_False, Bool.not_false]
      exact (decide_eq_true h2).symm
  · exact (List.take_sublist _ _).trans (List.filter_sublist _)
  · simp [linksToScrape, List.length_take]
  · intro link hlink entry hentry heq
    have := (linksToScrape_unseen persisted crawl link hlink).2
    apply this
    simp only [urlsOf, List.mem_map]
    exact ⟨entry, hentry, heq⟩

/-! ## Pagination: failed fetches and the page ceiling -/

theorem pastLimit_mono (maxPages : Option Nat) (j k : Nat) (hjk : j ≤ k)
    (h : pastLimit maxPages k = false) : pastLimit maxPages j = false := by
  cases maxPages with
  | none => rfl
  | some n =>
    simp only [pastLimit, decide_eq_false_iff_not, not_lt] at h ⊢
    omega

/-- A fetch that does not end pagination moves the loop to the next page, adding the
links of the page -/
theorem scrapeBody_pagerAfter (source : Nat → FetchResult) (m : Nat)
    (h : stopsPagination (source (m + 1)) = false) :
    scrapeBody source (pagerAfter source m) = pagerAfter source (m + 1) := by
  simp only [scrapeBody, pagerAfter, linksUpTo]
  cases hs : source (m + 1) with
  | ok page =>
    simp only [hs, stopsPagination, Bool.or_eq_false_iff, decide_eq_false_iff_not] at h
    simp only [fetchedLinks, h.1, h.2, if_false, Bool.false_eq_true]
    rw [List.range'_concat]
    simp [Nat.add_comm]
  | httpError status =>
    simp only [hs, stopsPagination, decide_eq_false_iff_not] at h
    simp only [fetchedLinks, h, if_false, List.append_nil]
    rw [List.range'_concat]
    simp [Nat.add_comm]
  | otherError =>
    simp only [fetchedLinks, List.append_nil]
    rw [List.range'_concat]
    simp [Nat.add_comm]

/-- While no page ends pagination and the ceiling is not passed, `m` passes through the
loop lead from the start to the state `pagerAfter source m` -/
theorem scrapeLoop_reach (source : Nat → FetchResult) (maxPages : Option Nat) :
    ∀ (m : Nat), (∀ j, 1 ≤ j → j ≤ m → stopsPagination (source j) = false) →
      pastLimit maxPages m = false → ∀ fuel,
      scrapeLoop source maxPages (fuel + m) (pagerAfter source 0)
        = scrapeLoop source maxPages fuel (pagerAfter source m) := by
  intro m
  induction m with
  | zero => intro _ _ fuel; rfl
  | succ m ih =>
    intro hstop hlimit fuel
    have h1 := ih (fun j hj1 hj2 => hstop j hj1 (by omega))
      (pastLimit_mono maxPages m (m + 1) (by omega) hlimit) (fuel + 1)
    rw [show fuel + (m + 1) = fuel + 1 + m by omega, h1, scrapeLoop]
    have hp : pastLimit maxPages (pagerAfter source m).currentPage = false := hlimit
    have hm : (pagerAfter source m).hasMorePages = true := rfl
    simp only [hm, hp, if_true, Bool.false_eq_true, if_false]
    rw [scrapeBody_pagerAfter source m (hstop (m + 1) (by omega) (le_refl _))]

/-- More fuel does not change what the loop returns -/
theorem scrapeLoop_fuel_mono (source : Nat → FetchResult) (maxPages : Option Nat) :
    ∀ (fuel : Nat) (st result : PagerState), scrapeLoop source maxPages fuel st = some result →
      ∀ extra, scrapeLoop source maxPages (fuel + extra) st = some result := by
  intro fuel
  induction fuel with
  | zero => intro st result h; simp [scrapeLoop] at h
  | succ fuel ih =>
    intro st result h extra
    rw [show fuel + 1 + extra = (fuel + extra) + 1 by omega]
    rw [scrapeLoop] at h ⊢
    by_cases hm : st.hasMorePages = true
    · by_cases hp : pastLimit maxPages st.currentPage = true
      · simpa [hm, hp] using h
      · simp only [hm, hp, if_true, Bool.false_eq_true, if_false] at h ⊢
        exact ih _ _ h extra
    · simpa [hm] using h

/-- Counterexample to C11 as stated: page 2 fails with status 503, a 500-class status. The
loop goes on: page 3 is requested and its link is returned after the link of page 1. -/
theorem terminal_failure_ignores_503 :
    unavailableSource 2 = .httpError 503 ∧
    scrapePages unavailableSource none 4
      = some { links := ["https://www.ebay.com/itm/111111111",
                         "https://www.ebay.com/itm/333333333"]
               fetched := [1, 2, 3] } ∧
    linksUpTo unavailableSource 1 = ["https://www.ebay.com/itm/111111111"] := by
  decide

/-- C11 (terminal listing failure), amended. Let page `k` be reached: no page before it ends
pagination and `k` does not exceed `maxPages`. If the fetch of page `k` fails with HTTP
status 404 or 500, `scrapePages` requests pages `1 .. k` only and returns exactly the links
accumulated from pages `1 .. k - 1`, in page order. If the fetch fails in any other way
(without a response, or with another status, 500-class statuses other than 500 included),
`scrapePages` keeps the accumulated links and the loop goes on at page `k + 1`. -/
theorem terminal_listing_failure (source : Nat → FetchResult) (maxPages : Option Nat) (k : Nat)
    (hk : 1 ≤ k)
    (hreach : ∀ j, 1 ≤ j → j < k → stopsPagination (source j) = false)
    (hlimit : pastLimit maxPages k = false) :
    (∀ status, source k = .httpError status → status = 404 ∨ status = 500 →
      scrapePages source maxPages (k + 1)
        = some { links := linksUpTo source (k - 1), fetched := List.range' 1 k }) ∧
    ((source k = .otherError ∨
        ∃ status, source k = .httpError status ∧ status ≠ 404 ∧ status ≠ 500) →
      ∀ fuel,
        scrapeLoop source maxPages (fuel + k)
            { allLinks := [], currentPage := 1, hasMorePages := true, fetched := [] }
          = scrapeLoop source maxPages fuel
            { allLinks := linksUpTo source (k - 1), currentPage := k + 1,
              hasMorePages := true, fetched := List.range' 1 k }) := by
  obtain ⟨m, rfl⟩ : ∃ m, k = m + 1 := ⟨k - 1, by omega⟩
  simp only [Nat.add_sub_cancel]
  constructor
  · intro status hs hstatus
    have hr := scrapeLoop_reach source maxPages m (fun j hj1 hj2 => hreach j hj1 (by omega))
      (pastLimit_mono maxPages m (m + 1) (by omega) hlimit) 2
    have hp : pastLimit maxPages (pagerAfter source m).currentPage = false := hlimit
    have hbody : scrapeBody source (pagerAfter source m)
        = { allLinks := linksUpTo source m, currentPage := m + 2, hasMorePages := false,
            fetched := List.range' 1 (m + 1) } := by
      simp only [scrapeBody, pagerAfter, hs, hstatus, if_true]
      rw [List.range'_concat]
      simp only [Nat.one_mul, Nat.add_comm 1 m, PagerState.mk.injEq, true_and, and_true]
    have hloop : scrapeLoop source maxPages 2 (pagerAfter source m)
        = some { allLinks := linksUpTo source m, currentPage := m + 2, hasMorePages := false,
                 fetched := List.range' 1 (m + 1) } := by
      rw [scrapeLoop]
      have hm : (pagerAfter source m).hasMorePages = true := rfl
      simp only [hm, hp, if_true, Bool.false_eq_true, if_false, hbody]
      rw [scrapeLoop]
      simp
    simp only [scrapePages]
    have hstart : ({ allLinks := [], currentPage := 1, hasMorePages := true, fetched := [] } :
        PagerState) = pagerAfter source 0 := rfl
    rw [hstart, show m + 1 + 1 = 2 + m by omega, hr, hloop]
    rfl
  · intro hfail fuel
    have hstop : stopsPagination (source (m + 1)) = false := by
      rcases hfail with h | ⟨status, h, h404, h500⟩
      · simp [h, stopsPagination]
      · simp [h, stopsPagination, h404, h500]
    have hlinks : fetchedLinks (source (m + 1)) = [] := by
      rcases hfail with h | ⟨status, h, _, _⟩ <;> simp [h, fetchedLinks]
    have hr := scrapeLoop_reach source maxPages (m + 1)
      (by
        intro j hj1 hj2
        by_cases hj : j = m + 1
        · rw [hj]; exact hstop
        · exact hreach j hj1 (by omega))
      hlimit fuel
    have hstart : ({ allLinks := [], currentPage := 1, hasMorePages := true, fetched := [] } :
        PagerState) = pagerAfter source 0 := rfl
    rw [hstart, hr]
    simp only [pagerAfter, linksUpTo, hlinks, List.append_nil]

/-- Witness for C11: page 2 of `goneSource` fails with status 404; pages 1 and 2 are
requested and the link of page 1 is returned -/
theorem terminal_listing_failure_witness :
    goneSource 2 = .httpError 404 ∧
    linksUpTo goneSource (2 - 1) = ["https://www.ebay.com/itm/111111111"] ∧
    scrapePages goneSource none (2 + 1)
      = some { links := linksUpTo goneSource (2 - 1), fetched := List.range' 1 2 } :=
  ⟨rfl, by decide,
    (terminal_listing_failure goneSource none 2 (by decide)
      (by
        intro j hj1 hj2
        have : j = 1 := by omega
        subst this
        decide)
      rfl).1 404 rfl (Or.inl rfl)⟩

/-- C13 (`maxPages` ceiling). For every listing source and every `maxPages = n ≥ 0`,
`scrapePages(baseUrl, n)` returns (with `n + 1` evaluations of the loop condition, and with
the same result for any larger fuel); the pages it requested are `1, 2, ..., m` for some
`m ≤ n`: at most `n` fetches, only page numbers in `1 .. n`, each at most once, in
increasing order. -/
theorem max_pages_ceiling (source : Nat → FetchResult) (n : Nat) :
    ∃ crawl, scrapePages source (some n) (n + 1) = some crawl ∧
      (∀ extra, scrapePages source (some n) (n + 1 + extra) = some crawl) ∧
      (∃ m, m ≤ n ∧ crawl.fetched = List.range' 1 m) ∧
      crawl.fetched.length ≤ n ∧
      (∀ page ∈ crawl.fetched, 1 ≤ page ∧ page ≤ n) ∧
      crawl.fetched.Nodup ∧
      crawl.fetched.Pairwise (fun a b => a < b) := by
  obtain ⟨st', h1, h2, h3⟩ := scrapeLoop_limit source n n
    { allLinks := [], currentPage := 1, hasMorePages := true, fetched := [] }
    (by simp [Nat.add_comm]) ⟨le_refl 1, rfl⟩
  refine ⟨{ links := st'.allLinks, fetched := st'.fetched }, by simp [scrapePages, h1], ?_,
    ⟨st'.currentPage - 1, by omega, h2.2⟩, ?_, ?_, ?_, ?_⟩
  · intro extra
    simp [scrapePages, scrapeLoop_fuel_mono source (some n) (n + 1) _ st' h1 extra]
  · simp only [h2.2, List.length_range']; omega
  · intro page hpage
    simp only [h2.2, List.mem_range'_1] at hpage
    omega
  · simp only [h2.2]; exact List.nodup_range' 1 _
  · simp only [h2.2]; exact List.pairwise_lt_range' 1 _

/-! ## `main`: reading and writing the store -/

/-- A store that cannot be read or parsed is handled exactly as an absent one -/
theorem main_unreadable_as_absent (env : MainEnv) :
    main { env with store := .unreadable } = main { env with store := .absent } := by
  rfl

/-- C12 (unreadable store is fatal), evaluated at the failing run: `output.json` exists but
does not parse, and the listing shows one item. The inner `catch` leaves
`existingProducts = []`, the item is scraped, and `main` writes a one-entry array over the
store instead of ending without writing. -/
theorem unreadable_store_overwritten :
    unreadableStoreEnv.store = .unreadable ∧
    main unreadableStoreEnv = some [plainRecord "https://www.ebay.com/itm/111111111"] := by
  decide

theorem collectNew_eq_truthyValues {ε : Type} (results : List (Outcome (Option Record) ε)) :
    collectNew results = truthyValues results := by
  induction results with
  | nil => rfl
  | cons o rest ih =>
    cases o with
    | fulfilled value =>
      cases value with
      | none => simpa [collectNew, truthyValues, truthyValue] using ih
      | some v => simpa [collectNew, truthyValues, truthyValue] using ih
    | rejected reason => simpa [collectNew, truthyValues, truthyValue] using ih

theorem length_truthyValues {ε : Type} (results : List (Outcome (Option Record) ε)) :
    (truthyValues results).length = results.countP (fun o => (truthyValue o).isSome) := by
  induction results with
  | nil => rfl
  | cons o rest ih =>
    simp only [truthyValues] at ih ⊢
    cases h : truthyValue o with
    | none => simp [List.filterMap_cons, List.countP_cons, h, ih]
    | some v => simp [List.filterMap_cons, List.countP_cons, h, ih]

/-- Whenever `main` writes, the executor's run has completed with an array of outcomes, and
what is written is the persisted entries followed by the records collected from it -/
theorem mainFrom_written (env : MainEnv) (productLinks : List String) (written : List Record)
    (h : mainFrom env productLinks = some written) :
    ∃ s results,
      runWithConcurrency
          (scrapingTasksFrom env.jobs 0 (linksToScrape (existingProducts env.store) productLinks))
          3 env.schedule = some s ∧
      s.driver = .done results ∧
      written = existingProducts env.store ++ collectNew results := by
  unfold mainFrom at h
  simp only at h
  split at h
  · simp at h
  · split at h
    · simp at h
    · split at h
      · rename_i s hs
        split at h
        · rename_i results hd
          split at h
          · simp only [Option.some.injEq] at h
            exact ⟨s, results, hs, hd, h.symm⟩
          · simp at h
        · simp at h
      · simp at h

/-- C14 (merge never loses persisted data). Whenever `main` writes the store, the executor
has returned an array `results` holding the outcome of each job of the batch in job order,
and the written collection is the collection read at the start followed by the truthy
values of the fulfilled outcomes in that order: the persisted collection is a leading
segment of it, entry by entry unchanged, and its length is the persisted length plus the
number of fulfilled outcomes with a truthy value. -/
theorem merge_keeps_persisted (env : MainEnv) (written : List Record)
    (hrun : main env = some written) :
    ∃ crawl s results,
      scrapePages env.source (some 5) 6 = some crawl ∧
      runWithConcurrency
          (scrapingTasksFrom env.jobs 0 (linksToScrape (existingProducts env.store) crawl.links))
          3 env.schedule = some s ∧
      s.driver = .done results ∧
      results
        = scrapingTasksFrom env.jobs 0 (linksToScrape (existingProducts env.store) crawl.links) ∧
      written = existingProducts env.store ++ truthyValues results ∧
      existingProducts env.store <+: written ∧
      (∀ i, i < (existingProducts env.store).length →
        written[i]? = (existingProducts env.store)[i]?) ∧
      written.length
        = (existingProducts env.store).length
          + results.countP (fun o => (truthyValue o).isSome) := by
  cases hcrawl : scrapePages env.source (some 5) 6 with
  | none => simp [main, hcrawl] at hrun
  | some crawl =>
    simp only [main, hcrawl] at hrun
    obtain ⟨s, results, hs, hd, hw⟩ := mainFrom_written env crawl.links written hrun
    rw [collectNew_eq_truthyValues] at hw
    refine ⟨crawl, s, results, rfl, hs, hd, done_outcomes _ 3 env.schedule s results hs hd, hw,
      ⟨truthyValues results, hw.symm⟩, ?_, ?_⟩
    · intro i hi
      rw [hw, List.getElem?_append_left hi]
    · rw [hw, List.length_append, length_truthyValues]

/-- Witness for C14: the second run of the four-item listing starts from three entries and
writes them, unchanged, followed by the record of the fourth item -/
theorem merge_keeps_persisted_witness :
    main fourLinksSecondEnv
      = some (fourLinksFirst ++ [plainRecord "https://www.ebay.com/itm/444444444"]) ∧
    fourLinksFirst <+: fourLinksFirst ++ [plainRecord "https://www.ebay.com/itm/444444444"] :=
  ⟨by decide, by
    obtain ⟨_, _, _, _, _, _, _, _, hpre, _, _⟩ :=
      merge_keeps_persisted fourLinksSecondEnv
        (fourLinksFirst ++ [plainRecord "https://www.ebay.com/itm/444444444"]) (by decide)
    exact hpre⟩

/-! ## Rejected extractions -/

/-- When `page.close()` throws during the first re-extraction, `waitForContent` rejects -/
theorem waitForContent_close_throws :
    waitForContent emptyContent closeThrowsBrowser 2
      = .rejected "Protocol error: Target closed" := by
  decide

/-- A rejection of the first `scrapeProduct` call is caught by `processLink`, which returns
`null` -/
theorem processLink_catches_rejection (env : JobEnv) (link reason : String)
    (h : env.browser 0 = .rejected reason) : processLink env link = none := by
  simp [processLink, scrapeProduct, h]

end Scraper
